import Mathlib

/-!
Verification of the Salesforce adapter reconciliation logic
(src/packages/salesforce-adapter/src/adapter.ts and its constants module).

The adapter's data model and operations are shallowly embedded below:
JavaScript runtime values that flow through annotations are captured by
`Value`, JavaScript objects / Maps by association lists with in-place
replacement (`setAssoc`), the lodash naming helpers by executable
functions over character lists, the vendor client by a response
function, and each public adapter operation by a pure function that
also returns the ordered list of client calls it issued.
-/

namespace Salto

/-- JavaScript runtime values that appear in element annotations in this
adapter: strings, booleans, arrays of strings (picklist values, default
lists), the field-level-security object (profile name to
editable/readable flags), and `undefined` for absent properties. -/
inductive Value where
  | str (s : String)
  | bool (b : Bool)
  | strList (ss : List String)
  | perms (entries : List (String × Bool × Bool))
  | undefV
deriving DecidableEq, Repr, Inhabited

/-- JavaScript truthiness for the values of `Value`: empty strings,
`false` and `undefined` are falsy; arrays and objects are always truthy. -/
def truthy : Value → Bool
  | .str s => !(s == "")
  | .bool b => b
  | .strList _ => true
  | .perms _ => true
  | .undefV => false

/-- JavaScript `Array.prototype.join(sep)` on a list of strings. -/
def joinWith (sep : String) : List String → String
  | [] => ""
  | [x] => x
  | x :: xs => x ++ sep ++ joinWith sep xs

/-- JavaScript string coercion (template literals) for `Value`. -/
def asString : Value → String
  | .str s => s
  | .bool b => if b then "true" else "false"
  | .strList ss => joinWith "," ss
  | .perms _ => "[object Object]"
  | .undefV => "undefined"

/-- Set a key in a JavaScript-object-like association list: replace the
value in place when the key is present, append otherwise. -/
def setAssoc {α : Type} (m : List (String × α)) (k : String) (v : α) : List (String × α) :=
  if m.any (fun p => p.1 == k) then m.map (fun p => if p.1 == k then (k, v) else p)
  else m ++ [(k, v)]

/-- Read a key from a JavaScript-object-like association list. -/
def getAssoc {α : Type} (m : List (String × α)) (k : String) : Option α :=
  (m.find? (fun p => p.1 == k)).map (fun p => p.2)

/-- Property read on a JavaScript object: `undefined` when absent. -/
def lookupA (m : List (String × Value)) (k : String) : Value :=
  (getAssoc m k).getD .undefV

/-- One word token of the lodash word splitter, for ASCII input: digit
runs, lowercase runs with an optional leading capital, and uppercase
runs (splitting before a trailing capitalized word, as in FOOBar →
FOO, Bar). Non-alphanumeric characters separate words. The `Nat`
argument is fuel, always called with at least the length of the list. -/
def wordTokensAux : Nat → List Char → List (List Char)
  | 0, _ => []
  | _, [] => []
  | Nat.succ n, c :: cs =>
    if c.isDigit then
      ((c :: cs).takeWhile Char.isDigit) :: wordTokensAux n ((c :: cs).dropWhile Char.isDigit)
    else if c.isLower then
      ((c :: cs).takeWhile Char.isLower) :: wordTokensAux n ((c :: cs).dropWhile Char.isLower)
    else if c.isUpper then
      match (c :: cs).span Char.isUpper with
      | (us, r :: rest) =>
        if r.isLower then
          if us.length == 1 then
            (us ++ (r :: rest).takeWhile Char.isLower)
              :: wordTokensAux n ((r :: rest).dropWhile Char.isLower)
          else
            us.dropLast :: wordTokensAux n (us.getLastD c :: r :: rest)
        else
          us :: wordTokensAux n (r :: rest)
      | (us, []) => [us]
    else
      wordTokensAux n cs

/-- lodash `words` for ASCII strings (no apostrophes or ordinals). -/
def lodashWords (s : String) : List String :=
  (wordTokensAux (s.data.length + 1) s.data).map (fun cs => String.mk cs)

/-- ASCII lowercasing of a string. -/
def lowerStr (s : String) : String := String.mk (s.data.map Char.toLower)

/-- lodash `upperFirst`: uppercase the first character, leave the rest. -/
def upperFirst (s : String) : String :=
  match s.data with
  | [] => ""
  | c :: cs => String.mk (c.toUpper :: cs)

/-- lodash `camelCase`: first word lowercased, later words capitalized. -/
def camelCase (s : String) : String :=
  match lodashWords s with
  | [] => ""
  | w :: ws => lowerStr w ++ String.join (ws.map (fun x => upperFirst (lowerStr x)))

/-- lodash `startCase`: words joined with spaces, each `upperFirst`ed. -/
def startCase (s : String) : String :=
  joinWith " " ((lodashWords s).map upperFirst)

/-- lodash `snakeCase`: words lowercased and joined with underscores. -/
def snakeCase (s : String) : String :=
  joinWith "_" ((lodashWords s).map lowerStr)

/-- JavaScript `String.prototype.endsWith` for ASCII strings. -/
def jsEndsWith (s suffixStr : String) : Bool :=
  (s.data.reverse.take suffixStr.data.length) == suffixStr.data.reverse

/-- JavaScript `s.slice(0, -k)`: drop the last `k` characters (empty
result when the string has at most `k` characters). -/
def jsDropRight (s : String) (k : Nat) : String :=
  String.mk (s.data.take (s.data.length - k))

/-- adapter.ts `sfCase`: wire-level (Salesforce) naming; capitalizes the
camel-cased words and appends the custom-object suffix when `custom`. -/
def sfCase (name : String) (custom : Bool := false) : String :=
  startCase (camelCase name) ++ (if custom then "__c" else "")

/-- adapter.ts `bpCase`: internal (blueprint) naming; snake-cases the
name and, when it ends with the custom suffix, slices off three
characters (`snakeCase(name).slice(0, -3)`). -/
def bpCase (name : String) : String :=
  if jsEndsWith name "__c" then jsDropRight (snakeCase name) 3 else snakeCase name

/-! Constants from src (the constants module of the adapter package). -/

def SALESFORCE : String := "salesforce"
def CUSTOM_FIELD : String := "CustomField"
def CUSTOM_OBJECT : String := "CustomObject"
def METADATA_OBJECT_NAME_FIELD : String := "fullName"
def METADATA_PROFILE_OBJECT : String := "Profile"
def PROFILE_NAME_SYSTEM_ADMINISTRATOR : String := "Admin"
def FIELD_LEVEL_SECURITY : String := "field_level_security"
def REQUIRED : String := "required"
def LABEL : String := "label"
def RESTRICTED_PICKLIST : String := "restricted_pick_list"
def PICKLIST_VALUES : String := "values"
def API_NAME : String := "api_name"

/-- Modelled from the external element framework (adapter-api): the
`Type.DEFAULT` annotation key used for default values. Its concrete
string does not matter to any claim; `_default` follows the
underscore-prefixed naming the source's eslint-disable comments imply. -/
def DEFAULT_ANNOT : String := "_default"

/-- A field element: the `Type` values stored in an object's `fields`
map. `name` is `typeID.name`; `annots` is `annotationsValues`. -/
structure FieldElem where
  name : String
  annots : List (String × Value)
deriving DecidableEq, Repr, Inhabited

/-- An `ObjectType` element: `typeID.name`, `annotationsValues`, and the
`fields` map from field name to field element (insertion-ordered, as a
JavaScript object). -/
structure ObjectTypeE where
  name : String
  annots : List (String × Value)
  fields : List (String × FieldElem)
deriving DecidableEq, Repr, Inhabited

/-- `element.clone()` of the framework: a deep copy; on pure values the
copy is the same value. -/
def ObjectTypeE.clone (e : ObjectTypeE) : ObjectTypeE := e

/-- adapter.ts `apiName` read on an object element. -/
def apiNameOf (e : ObjectTypeE) : Value := lookupA e.annots API_NAME

/-- adapter.ts `apiName` read on a field element. -/
def fieldApiName (f : FieldElem) : Value := lookupA f.annots API_NAME

/-- First statement of the `innerAnnotate` closure of adapter.ts
`annotateApiNameAndLabel`: add the API-name annotation
(custom-suffixed) when falsy/absent. -/
def apiStep (annots0 : List (String × Value)) (name : String) : List (String × Value) :=
  if truthy (lookupA annots0 API_NAME) then annots0
  else setAssoc annots0 API_NAME (.str (sfCase name true))

/-- Second statement of the `innerAnnotate` closure: add the label
annotation (non-suffixed) when falsy/absent. -/
def labelStep (annots0 : List (String × Value)) (name : String) : List (String × Value) :=
  if truthy (lookupA annots0 LABEL) then annots0
  else setAssoc annots0 LABEL (.str (sfCase name false))

/-- The `innerAnnotate` closure of adapter.ts `annotateApiNameAndLabel`:
its two statements in sequence. -/
def innerAnnotate (annots0 : List (String × Value)) (name : String) : List (String × Value) :=
  labelStep (apiStep annots0 name) name

/-- adapter.ts `annotateApiNameAndLabel`: normalize the object element
itself (named by its type name) and each field (named by its key). -/
def annotateApiNameAndLabel (element : ObjectTypeE) : ObjectTypeE :=
  { element with
    annots := innerAnnotate element.annots element.name
    fields := element.fields.map
      (fun fld => (fld.1, { fld.2 with annots := innerAnnotate fld.2.annots fld.1 })) }

/-- adapter.ts `fieldFullName`: fully qualified field name. -/
def fieldFullName (typeApiName fieldApiNameStr : String) : String :=
  typeApiName ++ "." ++ fieldApiNameStr

/-- Wire DTO CustomField (salesforce_types): constructor arguments of
`new CustomField(fullName, type, label, required, picklistValues)`. -/
structure CustomField where
  fullName : Value
  ftype : String
  label : Value
  required : Value
  picklistValues : Value
deriving DecidableEq, Repr

/-- adapter.ts `toCustomField`. -/
def toCustomField (field : FieldElem) (fullname : Bool := false) (objectName : String := "") :
    CustomField :=
  { fullName :=
      if fullname then .str (fieldFullName objectName (asString (lookupA field.annots API_NAME)))
      else lookupA field.annots API_NAME
    ftype := field.name
    label := lookupA field.annots LABEL
    required := lookupA field.annots REQUIRED
    picklistValues := lookupA field.annots PICKLIST_VALUES }

/-- Wire DTO CustomObject (salesforce_types). -/
structure CustomObject where
  fullName : Value
  label : Value
  cfields : List CustomField
deriving DecidableEq, Repr

/-- adapter.ts `toCustomObject`. -/
def toCustomObject (element : ObjectTypeE) : CustomObject :=
  { fullName := lookupA element.annots API_NAME
    label := lookupA element.annots LABEL
    cfields := element.fields.map (fun f => toCustomField f.2) }

/-- Wire DTO: one per-field permission entry of a ProfileInfo. -/
structure FieldPermission where
  field : String
  editable : Bool
  readable : Bool
deriving DecidableEq, Repr

/-- Wire DTO ProfileInfo (salesforce_types). -/
structure ProfileInfo where
  fullName : String
  fieldPermissions : List FieldPermission
deriving DecidableEq, Repr

/-- A jsforce error carried in a save result. -/
structure SfError where
  message : String
deriving DecidableEq, Repr

/-- The `errors` property of a save result: the vendor may return a
single error object or an array of them. -/
inductive SfErrors where
  | single (e : SfError)
  | array (es : List SfError)
deriving DecidableEq, Repr

/-- One vendor save result, with its optional `errors` property. -/
structure SaveResultE where
  errors : Option SfErrors
deriving DecidableEq, Repr

/-- A vendor call result: a single save result or an array of them. -/
inductive SfResult where
  | one (r : SaveResultE)
  | many (rs : List SaveResultE)
deriving DecidableEq, Repr

/-- The `errorMessage` closure of adapter.ts `diagnose`: a single
error's message, or the newline-join of an error array's messages. -/
def errorMessage : SfErrors → String
  | .single e => e.message
  | .array es => joinWith "\n" (es.map (fun e => e.message))

/-- adapter.ts `diagnose`: collect per-result error strings (array
results are filtered on a defined `errors` property; a single result on
a truthy one) and throw their newline-join when any were collected.
`some msg` models `throw Error(msg)`; `none` models a normal return. -/
def diagnose : SfResult → Option String
  | .many rs =>
    let errs := (rs.filter (fun r => !(r.errors == none))).map
      (fun r => errorMessage (r.errors.getD (.array [])))
    if errs.length > 0 then some (joinWith "\n" errs) else none
  | .one r =>
    match r.errors with
    | some e => some (errorMessage e)
    | none => none

/-- The argument of a vendor `delete` call: a single full name or an
array of full names. -/
inductive DeleteArg where
  | one (name : String)
  | many (names : List String)
deriving DecidableEq, Repr

/-- The payload of a vendor `create` call: one CustomObject or an array
of CustomFields. -/
inductive CreatePayload where
  | object (o : CustomObject)
  | fieldList (fs : List CustomField)
deriving DecidableEq, Repr

/-- One call made to the vendor client, with its full payload. -/
inductive ClientCall where
  | create (typeName : String) (payload : CreatePayload)
  | update (typeName : String) (prof : ProfileInfo)
  | delete (typeName : String) (arg : DeleteArg)
deriving DecidableEq, Repr

/-- The vendor client, as the adapter observes it: a save result for
every call. -/
abbrev Client : Type := ClientCall → SfResult

def isCreateCall : ClientCall → Bool
  | .create _ _ => true
  | _ => false

def isUpdateCall : ClientCall → Bool
  | .update _ _ => true
  | _ => false

def isDeleteCall : ClientCall → Bool
  | .delete _ _ => true
  | _ => false

/-- adapter.ts `updatePermissions`: the Profile update call granting
editable+readable on every given field, for the system administrator
profile. -/
def updatePermissionsCall (objectApiName : String) (fieldsApiName : List String) : ClientCall :=
  .update METADATA_PROFILE_OBJECT
    { fullName := PROFILE_NAME_SYSTEM_ADMINISTRATOR
      fieldPermissions := fieldsApiName.map (fun f =>
        { field := fieldFullName objectApiName f, editable := true, readable := true }) }

/-- The create call `add` issues for an (already normalized) element. -/
def createObjectCall (post : ObjectTypeE) : ClientCall :=
  .create CUSTOM_OBJECT (.object (toCustomObject post))

/-- The permission call `add` issues for an (already normalized)
element. -/
def addPermissionsCall (post : ObjectTypeE) : ClientCall :=
  updatePermissionsCall (asString (apiNameOf post))
    (post.fields.map (fun f => asString (fieldApiName f.2)))

/-- The body of adapter.ts `add` after the clone has been normalized:
create the custom object, diagnose, update permissions, diagnose.
Returns the outcome together with the client calls issued, in order. -/
def addRest (client : Client) (post : ObjectTypeE) :
    Except String ObjectTypeE × List ClientCall :=
  let c1 := createObjectCall post
  match diagnose (client c1) with
  | some msg => (.error msg, [c1])
  | none =>
    let c2 := addPermissionsCall post
    match diagnose (client c2) with
    | some msg => (.error msg, [c1, c2])
    | none => (.ok post, [c1, c2])

/-- adapter.ts `add`: clone, normalize annotations, then `addRest`. -/
def addOp (client : Client) (element : ObjectTypeE) :
    Except String ObjectTypeE × List ClientCall :=
  addRest client (annotateApiNameAndLabel element.clone)

/-- adapter.ts `remove`: a single delete call by API name. -/
def removeOp (client : Client) (element : ObjectTypeE) :
    Except String Unit × List ClientCall :=
  let c := ClientCall.delete CUSTOM_OBJECT (.one (asString (apiNameOf element)))
  match diagnose (client c) with
  | some msg => (.error msg, [c])
  | none => (.ok (), [c])

/-- adapter.ts `deleteCustomFields`: skipped when the field list is
empty, otherwise a single batched delete of the fully-qualified names,
diagnosed. -/
def deleteCustomFieldsOp (client : Client) (objectApiName : String)
    (fieldsApiName : List String) : Option String × List ClientCall :=
  if fieldsApiName.length = 0 then (none, [])
  else
    let c := ClientCall.delete CUSTOM_FIELD
      (.many (fieldsApiName.map (fun field => fieldFullName objectApiName field)))
    (diagnose (client c), [c])

/-- adapter.ts `createFields`: skipped when the field list is empty,
otherwise a single batched create of the fully-qualified custom fields,
diagnosed, then the permission update for them, diagnosed. -/
def createFieldsOp (client : Client) (relatedObjectApiName : String)
    (fieldsToAdd : List FieldElem) : Option String × List ClientCall :=
  if fieldsToAdd.length = 0 then (none, [])
  else
    let c1 := ClientCall.create CUSTOM_FIELD
      (.fieldList (fieldsToAdd.map (fun f => toCustomField f true relatedObjectApiName)))
    match diagnose (client c1) with
    | some msg => (some msg, [c1])
    | none =>
      let c2 := updatePermissionsCall relatedObjectApiName
        (fieldsToAdd.map (fun f => asString (lookupA f.annots API_NAME)))
      (diagnose (client c2), [c1, c2])

/-- Modelled from the external element framework (adapter-api):
`ObjectType.getFieldsThatAreNotInOther` — the names of the fields of
this object that do not appear among the other object's field names. -/
def getFieldsThatAreNotInOther (self other : ObjectTypeE) : List String :=
  (self.fields.filter (fun p => !(other.fields.any (fun q => q.1 == p.1)))).map (fun p => p.1)

/-- The body of adapter.ts `update` on the previous element and the
already-normalized clone `post` of the new element: check the API-name
precondition, delete the fields only in the previous version, create
the fields only in the new version. -/
def updateRest (client : Client) (prevElement post : ObjectTypeE) :
    Except String ObjectTypeE × List ClientCall :=
  if apiNameOf post ≠ apiNameOf prevElement then
    (.error ("Failed to update element as api names pre="
        ++ asString (apiNameOf prevElement) ++ " and post="
        ++ asString (apiNameOf post) ++ " are different"), [])
  else
    match deleteCustomFieldsOp client (asString (apiNameOf prevElement))
      ((prevElement.fields.filter (fun field =>
          (getFieldsThatAreNotInOther prevElement post).contains field.1)).map
        (fun field => asString (lookupA field.2.annots API_NAME))) with
    | (some msg, dtrace) => (.error msg, dtrace)
    | (none, dtrace) =>
      match createFieldsOp client (asString (apiNameOf post))
        ((post.fields.filter (fun field =>
            (getFieldsThatAreNotInOther post prevElement).contains field.1)).map
          (fun field => field.2)) with
      | (some msg, ctrace) => (.error msg, dtrace ++ ctrace)
      | (none, ctrace) => (.ok post, dtrace ++ ctrace)

/-- adapter.ts `update`: clone the new element, normalize annotations,
then `updateRest`. -/
def updateOp (client : Client) (prevElement newElement : ObjectTypeE) :
    Except String ObjectTypeE × List ClientCall :=
  updateRest client prevElement (annotateApiNameAndLabel newElement.clone)

/-- One entry of a vendor picklist value list: its value and whether it
is flagged as the default. -/
structure PicklistEntry where
  value : String
  defaultValue : Bool
deriving DecidableEq, Repr

/-- A jsforce sobject field descriptor, restricted to the properties
adapter.ts reads. `picklistValues` is `none` when the property is
undefined. -/
structure SField where
  name : String
  ftype : String
  label : String
  nillable : Bool
  defaultValue : Value
  picklistValues : Option (List PicklistEntry)
  restrictedPicklist : Bool
deriving DecidableEq, Repr

/-- A jsforce metadata ValueTypeField descriptor, restricted to the
properties adapter.ts reads. -/
structure VTField where
  name : String
  soapType : String
  valueRequired : Bool
  picklistValues : Option (List PicklistEntry)
deriving DecidableEq, Repr

/-- adapter.ts `getType`: the type-name mapping of the registry lookup
(string stays itself, double becomes number, boolean becomes checkbox,
anything else keeps its name). -/
def mappedTypeName (name : String) : String :=
  match bpCase name with
  | "string" => name
  | "double" => "number"
  | "boolean" => "checkbox"
  | _ => name

/-- adapter.ts `getType` producing a field element: the registry's
canonical instance is never mutated, so the returned clone carries no
annotations yet. -/
def getTypeField (name : String) : FieldElem :=
  { name := mappedTypeName name, annots := [] }

/-- adapter.ts `getType` producing an object element. -/
def getTypeObject (name : String) : ObjectTypeE :=
  { name := mappedTypeName name, annots := [], fields := [] }

/-- adapter.ts `createSObjectFieldTypeElement`: label, required
(from `nillable`) and default, then — when a non-empty picklist-value
list is present — the value list, the restricted flag, and the default
resolution that branches on the vendor field type being `picklist`. -/
def createSObjectFieldTypeElement (field : SField) : FieldElem :=
  let element := getTypeField field.ftype
  let a1 := setAssoc element.annots LABEL (.str field.label)
  let a2 := setAssoc a1 REQUIRED (.bool field.nillable)
  let a3 := setAssoc a2 DEFAULT_ANNOT field.defaultValue
  match field.picklistValues with
  | some pvs =>
    if pvs.length > 0 then
      let a4 := setAssoc a3 PICKLIST_VALUES (.strList (pvs.map (fun val => val.value)))
      let a5 := setAssoc a4 RESTRICTED_PICKLIST (.bool false)
      let a6 := if field.restrictedPicklist
        then setAssoc a5 RESTRICTED_PICKLIST (.bool field.restrictedPicklist) else a5
      let defaults := (pvs.filter (fun val => val.defaultValue)).map (fun val => val.value)
      let a7 :=
        if defaults.length > 0 then
          if field.ftype == "picklist" then setAssoc a6 DEFAULT_ANNOT (.str (defaults.getLastD ""))
          else setAssoc a6 DEFAULT_ANNOT (.strList defaults)
        else a6
      { element with annots := a7 }
    else { element with annots := a3 }
  | none => { element with annots := a3 }

/-- adapter.ts `createMetadataFieldTypeElement`: required from
`valueRequired`, then — when a non-empty picklist-value list is present —
the value list and the default resolution that branches on the number
of default-flagged values being exactly one. -/
def createMetadataFieldTypeElement (field : VTField) : FieldElem :=
  let element := getTypeField field.soapType
  let a1 := setAssoc element.annots REQUIRED (.bool field.valueRequired)
  match field.picklistValues with
  | some pvs =>
    if pvs.length > 0 then
      let a2 := setAssoc a1 PICKLIST_VALUES (.strList (pvs.map (fun val => val.value)))
      let defaults := (pvs.filter (fun val => val.defaultValue)).map (fun val => val.value)
      let a3 :=
        if defaults.length == 1 then setAssoc a2 DEFAULT_ANNOT (.str (defaults.getLastD ""))
        else setAssoc a2 DEFAULT_ANNOT (.strList defaults)
      { element with annots := a3 }
    else { element with annots := a1 }
  | none => { element with annots := a1 }

/-- adapter.ts `createSObjectTypeElement` on one listed object and the
field descriptors the client returns for it: annotate the API name and
install each mapped field element, keyed by its internal name and
carrying its own API-name annotation. -/
def createSObjectTypeElement (objectName : String) (fields : List SField) : ObjectTypeE :=
  let element := getTypeObject objectName
  let element := { element with annots := setAssoc element.annots API_NAME (.str objectName) }
  { element with
    fields := fields.foldl (fun acc field =>
      let fieldElement := createSObjectFieldTypeElement field
      let fieldElement :=
        { fieldElement with annots := setAssoc fieldElement.annots API_NAME (.str field.name) }
      setAssoc acc (bpCase field.name) fieldElement) element.fields }

/-- The permission index built by adapter.ts `discoverPermissions`:
fully-qualified field name to (profile full name to permission entry),
both maps in insertion order. -/
abbrev PermIndex : Type := List (String × List (String × FieldPermission))

/-- adapter.ts `discoverPermissions` on the profile payloads the client
returned: fold every profile's `fieldPermissions` into the index. -/
def discoverPermissionsOp (profilesInfo : List ProfileInfo) : PermIndex :=
  profilesInfo.foldl (fun permissions info =>
    info.fieldPermissions.foldl (fun permissions fieldPermission =>
      let name := fieldPermission.field
      setAssoc permissions name
        (setAssoc ((getAssoc permissions name).getD []) info.fullName fieldPermission))
      permissions) []

/-- The field-level-security annotation value adapter.ts builds from one
permission-index entry: an object mapping each internalized profile
name to its editable/readable flags. -/
def buildFieldPermValue (entry : List (String × FieldPermission)) : Value :=
  .perms (entry.foldl (fun acc pp =>
    setAssoc acc (bpCase pp.1) (pp.2.editable, pp.2.readable)) [])

/-- The annotation pass at the end of adapter.ts `discoverSObjects`:
for each field, look up the object's and field's API names in the
permission index and attach the field-level-security annotation when an
entry exists. -/
def attachPermissions (permissions : PermIndex) (sobject : ObjectTypeE) : ObjectTypeE :=
  { sobject with
    fields := sobject.fields.map (fun fld =>
      match getAssoc permissions
        (asString (lookupA sobject.annots API_NAME) ++ "."
          ++ asString (lookupA fld.2.annots API_NAME)) with
      | some fieldPermission =>
        (fld.1, { fld.2 with
          annots := setAssoc fld.2.annots FIELD_LEVEL_SECURITY
            (buildFieldPermValue fieldPermission) })
      | none => fld) }

/-- adapter.ts `discoverSObjects` on the listed objects (name and field
descriptors) and profile payloads: map the objects, build the
permission index, attach field-level security. -/
def discoverSObjectsOp (sobjectsData : List (String × List SField))
    (profilesInfo : List ProfileInfo) : List ObjectTypeE :=
  (sobjectsData.map (fun d => createSObjectTypeElement d.1 d.2)).map
    (attachPermissions (discoverPermissionsOp profilesInfo))

/-- The default object value used for out-of-range heap reads. -/
def emptyObject : ObjectTypeE := { name := "", annots := [], fields := [] }

/-- A heap of element objects: `add`/`update` are re-expressed against
it to make mutation and aliasing explicit. References are indices. -/
def heapGet (h : List ObjectTypeE) (r : Nat) : ObjectTypeE := h.getD r emptyObject

/-- adapter.ts `add` with JavaScript object identity made explicit:
`element.clone()` allocates a fresh object, `annotateApiNameAndLabel`
mutates only that fresh object, and the remaining statements only read
it. Returns the final heap, the outcome (a reference on success) and
the issued calls. -/
def addHeap (client : Client) (h : List ObjectTypeE) (eRef : Nat) :
    List ObjectTypeE × Except String Nat × List ClientCall :=
  let postRef := h.length
  let h1 := h ++ [heapGet h eRef]
  let h2 := h1.set postRef (annotateApiNameAndLabel (heapGet h1 postRef))
  let r := addRest client (heapGet h2 postRef)
  (h2, r.1.map (fun _ => postRef), r.2)

/-- Stated from the spec's words, for comparison with the code's
`getFieldsThatAreNotInOther`-based filter: the field entries of `a`
whose name does not occur among the field names of `b`. -/
def fieldsOnlyInFst (a b : ObjectTypeE) : List (String × FieldElem) :=
  a.fields.filter (fun p => !(b.fields.any (fun q => q.1 == p.1)))

/-- The save results contained in a vendor result (a single result is
the one-element sequence). -/
def resultEntries : SfResult → List SaveResultE
  | .one r => [r]
  | .many rs => rs

/-- The individual error messages one save result entry carries: one
for a single error, one per array element, none for undefined errors. -/
def entryMessages (e : SaveResultE) : List String :=
  match e.errors with
  | some (.single err) => [err.message]
  | some (.array errs) => errs.map (fun x => x.message)
  | none => []

/-- Stated from the spec's words, for comparison with `diagnose`: the
individual error messages of all error entries of a result, in order. -/
def allErrorMessages (r : SfResult) : List String :=
  ((resultEntries r).map entryMessages).flatten

/-- The entries of a field-level-security annotation value. -/
def permsEntries : Value → List (String × Bool × Bool)
  | .perms l => l
  | _ => []

/-- adapter.ts `update` with JavaScript object identity made explicit:
only the fresh clone of the new element is ever written; the previous
element and the caller's new element are only read. -/
def updateHeap (client : Client) (h : List ObjectTypeE) (prevRef newRef : Nat) :
    List ObjectTypeE × Except String Nat × List ClientCall :=
  let postRef := h.length
  let h1 := h ++ [heapGet h newRef]
  let h2 := h1.set postRef (annotateApiNameAndLabel (heapGet h1 postRef))
  let r := updateRest client (heapGet h2 prevRef) (heapGet h2 postRef)
  (h2, r.1.map (fun _ => postRef), r.2)

/-- An element whose API name annotation is `Foo__c`. -/
def exPrevFoo : ObjectTypeE :=
  { name := "prev", annots := [(API_NAME, .str "Foo__c")], fields := [] }

/-- An element whose API name annotation is `Bar__c`. -/
def exNewBar : ObjectTypeE :=
  { name := "bar", annots := [(API_NAME, .str "Bar__c")], fields := [] }

/-- A client whose every call succeeds with an empty result array. -/
def okClient : Client := fun _ => .many []

/-- An object element that already carries both annotations, the label
being the empty string (a carried but falsy annotation). -/
def exEmptyLabel : ObjectTypeE :=
  { name := "foo", annots := [(API_NAME, .str "X__c"), (LABEL, .str "")], fields := [] }

/-- A fully annotated field element with truthy annotation values. -/
def exAnnotatedField : FieldElem :=
  { name := "string", annots := [(API_NAME, .str "F__c"), (LABEL, .str "F")] }

/-- A fully annotated element with truthy annotation values. -/
def exAnnotated : ObjectTypeE :=
  { name := "ok", annots := [(API_NAME, .str "Ok__c"), (LABEL, .str "Ok")],
    fields := [("f", exAnnotatedField)] }

/-- A discovered sobject field of vendor type `multipicklist` with
exactly one default-flagged picklist value. -/
def exMultiPicklistField : SField :=
  { name := "color", ftype := "multipicklist", label := "Color", nillable := false,
    defaultValue := .undefV, picklistValues := some [{ value := "A", defaultValue := true }],
    restrictedPicklist := false }

/-- A discovered sobject field of vendor type `picklist` with two
default-flagged values. -/
def exPicklistField : SField :=
  { name := "size", ftype := "picklist", label := "Size", nillable := false,
    defaultValue := .undefV,
    picklistValues := some [{ value := "S", defaultValue := true },
      { value := "L", defaultValue := true }],
    restrictedPicklist := false }

/-- A metadata value-type field with one default-flagged value. -/
def exMetaField : VTField :=
  { name := "mode", soapType := "string", valueRequired := true,
    picklistValues := some [{ value := "on", defaultValue := true },
      { value := "off", defaultValue := false }] }

/-- A client that always returns the mixed result with one `boom` error
entry and one empty-array entry. -/
def exBoomClient : Client :=
  fun _ => .many [{ errors := some (.array [{ message := "boom" }]) },
    { errors := some (.array []) }]

/-- A plain unannotated object element with no fields. -/
def exPlainObject : ObjectTypeE := { name := "obj", annots := [], fields := [] }

/-- A previously created field element carrying the API name `A__c`. -/
def exFieldA : FieldElem := { name := "string", annots := [(API_NAME, .str "A__c")] }

/-- A previously created field element carrying the API name `B__c`. -/
def exFieldB : FieldElem := { name := "string", annots := [(API_NAME, .str "B__c")] }

/-- A previous element with API name `My Obj__c` and fields a, b. -/
def exUpdPrev : ObjectTypeE :=
  { name := "x", annots := [(API_NAME, .str "My Obj__c")],
    fields := [("f_a", exFieldA), ("f_b", exFieldB)] }

/-- A new element (unannotated) named my_obj with fields b, c. -/
def exUpdNew : ObjectTypeE :=
  { name := "my_obj", annots := [],
    fields := [("f_b", { name := "string", annots := [] }),
      ("f_c", { name := "string", annots := [] })] }

/-- A one-field unannotated element named my_obj. -/
def exUpdNewOneField : ObjectTypeE :=
  { name := "my_obj", annots := [],
    fields := [("f_b", { name := "string", annots := [] })] }

/-- The ProfileInfo payload the permission call for
`exUpdNewOneField` carries. -/
def exAdminProfileInfo : ProfileInfo :=
  { fullName := "Admin",
    fieldPermissions := [{ field := "My Obj__c.F B__c", editable := true, readable := true }] }

/-- The single field descriptor of the C6 witness object. -/
def exAccountField : SField :=
  { name := "Name", ftype := "string", label := "Name", nillable := false,
    defaultValue := .undefV, picklistValues := none, restrictedPicklist := false }

/-- The discovered-object input data of the witness: one object named
Account with one Name field of type string. -/
def exAccountData : List (String × List SField) := [("Account", [exAccountField])]

/-- The profile payloads of the witness: the Admin profile recording
editable and readable permission on Account.Name. -/
def exProfilesInfo : List ProfileInfo :=
  [{ fullName := "Admin",
     fieldPermissions := [{ field := "Account.Name", editable := true, readable := true }] }]

/-- The Name field element discovery produces for the witness data. -/
def exDiscoveredField : FieldElem :=
  { name := "string",
    annots := [(LABEL, .str "Name"), (REQUIRED, .bool false), (DEFAULT_ANNOT, .undefV),
      (API_NAME, .str "Name"), (FIELD_LEVEL_SECURITY, .perms [("admin", true, true)])] }

/-- The Account element discovery produces for the witness data. -/
def exDiscovered : ObjectTypeE :=
  { name := "Account", annots := [(API_NAME, .str "Account")],
    fields := [("name", exDiscoveredField)] }

theorem getAssoc_nil {α : Type} (k : String) : getAssoc ([] : List (String × α)) k = none := rfl

theorem getAssoc_cons_pos {α : Type} {p : String × α} {t : List (String × α)} {k : String}
    (h : (p.1 == k) = true) : getAssoc (p :: t) k = some p.2 := by
  simp [getAssoc, List.find?, h]

theorem getAssoc_cons_neg {α : Type} {p : String × α} {t : List (String × α)} {k : String}
    (h : (p.1 == k) = false) : getAssoc (p :: t) k = getAssoc t k := by
  simp [getAssoc, List.find?, h]

theorem getAssoc_setAssoc_self {α : Type} (m : List (String × α)) (k : String) (v : α) :
    getAssoc (setAssoc m k v) k = some v := by
  unfold setAssoc
  split
  · rename_i h
    induction m with
    | nil => simp at h
    | cons p t ih =>
      by_cases hp : p.1 = k
      · have hpk : (p.1 == k) = true := by simpa using hp
        simp only [List.map_cons]
        rw [if_pos hpk]
        exact getAssoc_cons_pos (by simp)
      · have hpk : (p.1 == k) = false := by simpa using hp
        simp only [List.map_cons]
        rw [if_neg (by simp [hpk]), getAssoc_cons_neg hpk]
        simp only [List.any_cons, hpk, Bool.false_or] at h
        exact ih h
  · induction m with
    | nil =>
      simp only [List.nil_append]
      exact getAssoc_cons_pos (by simp)
    | cons p t ih =>
      rename_i h
      simp only [List.any_cons, Bool.or_eq_true, not_or] at h
      have hpk : (p.1 == k) = false := by
        cases hpk : p.1 == k
        · rfl
        · exact absurd hpk (by simpa using h.1)
      rw [List.cons_append, getAssoc_cons_neg hpk]
      exact ih (by simpa using h.2)

theorem getAssoc_map_replace_ne {α : Type} (m : List (String × α)) (k k' : String) (v : α)
    (h : k' ≠ k) :
    getAssoc (m.map fun p => if p.1 == k then (k, v) else p) k' = getAssoc m k' := by
  induction m with
  | nil => rfl
  | cons p t ih =>
    by_cases hp : p.1 = k
    · have hpk : (p.1 == k) = true := by simpa using hp
      have hkk : (k == k') = false := by simpa using (Ne.symm h)
      have hpk' : (p.1 == k') = false := by rw [hp]; exact hkk
      simp only [List.map_cons]
      rw [if_pos hpk, getAssoc_cons_neg hkk, getAssoc_cons_neg hpk', ih]
    · have hpk : (p.1 == k) = false := by simpa using hp
      simp only [List.map_cons]
      rw [if_neg (by simp [hpk])]
      by_cases hq : p.1 = k'
      · have hq' : (p.1 == k') = true := by simpa using hq
        rw [getAssoc_cons_pos hq', getAssoc_cons_pos hq']
      · have hq' : (p.1 == k') = false := by simpa using hq
        rw [getAssoc_cons_neg hq', getAssoc_cons_neg hq', ih]

theorem getAssoc_append_single_ne {α : Type} (m : List (String × α)) (k k' : String) (v : α)
    (h : k' ≠ k) : getAssoc (m ++ [(k, v)]) k' = getAssoc m k' := by
  induction m with
  | nil =>
    have hkk : (k == k') = false := by simpa using (Ne.symm h)
    simp only [List.nil_append]
    rw [getAssoc_cons_neg hkk]
  | cons p t ih =>
    by_cases hq : p.1 = k'
    · have hq' : (p.1 == k') = true := by simpa using hq
      rw [List.cons_append, getAssoc_cons_pos hq', getAssoc_cons_pos hq']
    · have hq' : (p.1 == k') = false := by simpa using hq
      rw [List.cons_append, getAssoc_cons_neg hq', getAssoc_cons_neg hq', ih]

theorem getAssoc_setAssoc_ne {α : Type} (m : List (String × α)) (k k' : String) (v : α)
    (h : k' ≠ k) : getAssoc (setAssoc m k v) k' = getAssoc m k' := by
  unfold setAssoc
  split
  · exact getAssoc_map_replace_ne m k k' v h
  · exact getAssoc_append_single_ne m k k' v h

theorem setAssoc_setAssoc_same {α : Type} (m : List (String × α)) (k : String) (v : α) :
    setAssoc (setAssoc m k v) k v = setAssoc m k v := by
  unfold setAssoc
  split
  · rename_i h
    have hany : ((m.map fun p => if p.1 == k then (k, v) else p).any fun p => p.1 == k) = true := by
      rcases List.any_eq_true.mp h with ⟨p, hp, hpk⟩
      exact List.any_eq_true.mpr ⟨(k, v), List.mem_map.mpr ⟨p, hp, by simp [hpk]⟩, by simp⟩
    rw [if_pos hany, List.map_map]
    apply List.map_congr_left
    intro p _
    by_cases hp : p.1 = k <;> simp [Function.comp, hp]
  · rename_i h
    have hany : ((m ++ [(k, v)]).any fun p => p.1 == k) = true :=
      List.any_eq_true.mpr ⟨(k, v), by simp, by simp⟩
    have h1 : m.map (fun p => if p.1 == k then (k, v) else p) = m := by
      have hid : ∀ p ∈ m, (fun p => if p.1 == k then (k, v) else p) p = id p := by
        intro p hp
        have hf : (p.1 == k) = false := by
          cases hpk : p.1 == k
          · rfl
          · exact absurd (List.any_eq_true.mpr ⟨p, hp, hpk⟩) h
        simp [hf]
      rw [List.map_congr_left hid, List.map_id]
    rw [if_pos hany, List.map_append, h1]
    simp

theorem mem_setAssoc {α : Type} {m : List (String × α)} {k : String} {v : α} {p : String × α}
    (h : p ∈ setAssoc m k v) : p = (k, v) ∨ p ∈ m := by
  unfold setAssoc at h
  split at h
  · rcases List.mem_map.mp h with ⟨q, hq, he⟩
    by_cases hqk : q.1 = k
    · left
      simp only [hqk, beq_self_eq_true, if_true] at he
      exact he.symm
    · right
      simp only [hqk, beq_iff_eq, if_false] at he
      exact he ▸ hq
  · rcases List.mem_append.mp h with hm | hm
    · right; exact hm
    · left; simpa using hm

theorem lookupA_setAssoc_self (m : List (String × Value)) (k : String) (v : Value) :
    lookupA (setAssoc m k v) k = v := by
  unfold lookupA
  rw [getAssoc_setAssoc_self]
  rfl

theorem lookupA_setAssoc_ne (m : List (String × Value)) (k k' : String) (v : Value)
    (h : k' ≠ k) : lookupA (setAssoc m k v) k' = lookupA m k' := by
  unfold lookupA
  rw [getAssoc_setAssoc_ne _ _ _ _ h]

theorem ne_api_label : (API_NAME : String) ≠ LABEL := by decide

theorem ne_label_api : (LABEL : String) ≠ API_NAME := by decide

theorem sfCase_custom_ne_empty (n : String) : sfCase n true ≠ "" := by
  intro h
  have hlen := congrArg String.length h
  rw [sfCase, if_pos rfl] at hlen
  rw [String.length_append] at hlen
  have h3 : ("__c" : String).length = 3 := rfl
  rw [h3] at hlen
  simp at hlen

theorem truthy_sfCase_custom (n : String) : truthy (.str (sfCase n true)) = true := by
  unfold truthy
  simp [sfCase_custom_ne_empty n]

theorem apiStep_lookup_truthy (a : List (String × Value)) (n : String) :
    truthy (lookupA (apiStep a n) API_NAME) = true := by
  unfold apiStep
  by_cases h : truthy (lookupA a API_NAME) = true
  · rw [if_pos h]
    exact h
  · rw [if_neg h, lookupA_setAssoc_self]
    exact truthy_sfCase_custom n

theorem apiStep_of_truthy (a : List (String × Value)) (n : String)
    (h : truthy (lookupA a API_NAME) = true) : apiStep a n = a := by
  unfold apiStep
  rw [if_pos h]

theorem labelStep_of_truthy (a : List (String × Value)) (n : String)
    (h : truthy (lookupA a LABEL) = true) : labelStep a n = a := by
  unfold labelStep
  rw [if_pos h]

theorem labelStep_lookup_api (a : List (String × Value)) (n : String) :
    lookupA (labelStep a n) API_NAME = lookupA a API_NAME := by
  unfold labelStep
  by_cases h : truthy (lookupA a LABEL) = true
  · rw [if_pos h]
  · rw [if_neg h, lookupA_setAssoc_ne _ _ _ _ ne_api_label]

theorem labelStep_of_falsy (a : List (String × Value)) (n : String)
    (h : ¬truthy (lookupA a LABEL) = true) :
    labelStep a n = setAssoc a LABEL (.str (sfCase n false)) := by
  unfold labelStep
  rw [if_neg h]

theorem labelStep_idem (a : List (String × Value)) (n : String) :
    labelStep (labelStep a n) n = labelStep a n := by
  by_cases h2 : truthy (lookupA (labelStep a n) LABEL) = true
  · rw [labelStep_of_truthy _ n h2]
  · by_cases h : truthy (lookupA a LABEL) = true
    · rw [labelStep_of_truthy a n h] at h2 ⊢
      exact absurd h h2
    · have hb := labelStep_of_falsy a n h
      rw [labelStep_of_falsy _ n h2, hb, setAssoc_setAssoc_same, ← hb]

theorem innerAnnotate_api_truthy (a : List (String × Value)) (n : String) :
    truthy (lookupA (innerAnnotate a n) API_NAME) = true := by
  unfold innerAnnotate
  rw [labelStep_lookup_api]
  exact apiStep_lookup_truthy a n

theorem innerAnnotate_idem (a : List (String × Value)) (n : String) :
    innerAnnotate (innerAnnotate a n) n = innerAnnotate a n := by
  have h1 : apiStep (innerAnnotate a n) n = innerAnnotate a n :=
    apiStep_of_truthy _ n (innerAnnotate_api_truthy a n)
  show labelStep (apiStep (innerAnnotate a n) n) n = innerAnnotate a n
  rw [h1]
  show labelStep (labelStep (apiStep a n) n) n = innerAnnotate a n
  rw [labelStep_idem]
  rfl

theorem innerAnnotate_of_truthy (a : List (String × Value)) (n : String)
    (h1 : truthy (lookupA a API_NAME) = true) (h2 : truthy (lookupA a LABEL) = true) :
    innerAnnotate a n = a := by
  show labelStep (apiStep a n) n = a
  rw [apiStep_of_truthy a n h1, labelStep_of_truthy a n h2]

theorem annotateApiNameAndLabel_idem (e : ObjectTypeE) :
    annotateApiNameAndLabel (annotateApiNameAndLabel e) = annotateApiNameAndLabel e := by
  unfold annotateApiNameAndLabel
  simp only [List.map_map]
  refine congrArg₂ (fun a f => ObjectTypeE.mk e.name a f) (innerAnnotate_idem _ _) ?_
  apply List.map_congr_left
  intro p _
  simp only [Function.comp]
  rw [innerAnnotate_idem]

/-- C2: evaluation of the naming round trip at the internal name
`name`. The spec claims `bpCase (sfCase n true)` recovers the
snake-cased form of `n` for every `n` free of the custom suffix, but
`snakeCase` collapses the two-underscore suffix `__c` into the two
characters `_c` before `bpCase` slices off three characters, so the
code also drops the last character of the base name: the round trip of
`name` yields `nam`, not `name`. -/
theorem c2_roundtrip_drops_last_char :
    bpCase (sfCase "name" true) = "nam" ∧ snakeCase "name" = "name" ∧
    bpCase (sfCase "name" true) ≠ snakeCase "name" := by
  refine ⟨rfl, rfl, ?_⟩
  decide

/-- C4: when the API-name annotations of the normalized new element and
the previous element differ, `update` returns the error whose message
names both values (pre and post) and issues no client call at all. -/
theorem c4_api_name_mismatch (client : Client) (prevElement newElement : ObjectTypeE)
    (h : apiNameOf (annotateApiNameAndLabel newElement.clone) ≠ apiNameOf prevElement) :
    updateOp client prevElement newElement =
      (.error ("Failed to update element as api names pre="
          ++ asString (apiNameOf prevElement) ++ " and post="
          ++ asString (apiNameOf (annotateApiNameAndLabel newElement.clone)) ++ " are different"),
        []) := by
  unfold updateOp updateRest
  rw [if_pos h]

/-- Witness for C4 at `Foo__c` versus `Bar__c`. -/
theorem c4_witness :
    updateOp okClient exPrevFoo exNewBar =
      (.error "Failed to update element as api names pre=Foo__c and post=Bar__c are different",
        []) :=
  (c4_api_name_mismatch okClient exPrevFoo exNewBar (by decide)).trans (by rfl)

/-- C10: `diagnose` (hence every operation that calls it) throws exactly
when some result entry has a defined `errors` property; a single result
whose `errors` is the empty array still throws, with the empty string
as message, and likewise an array result whose only entry with defined
`errors` carries the empty array. -/
theorem c10_diagnose_defined_errors (r : SfResult) (rs : List SaveResultE)
    (entry : SaveResultE) :
    ((diagnose r).isSome ↔ ∃ e ∈ resultEntries r, e.errors ≠ none) ∧
    (diagnose (.one { errors := some (.array []) }) = some "") ∧
    (rs.filter (fun e => !(e.errors == none)) = [entry] →
      entry.errors = some (.array []) → diagnose (.many rs) = some "") := by
  refine ⟨?_, rfl, ?_⟩
  · cases r with
    | one r0 =>
      cases h : r0.errors with
      | none => simp [diagnose, resultEntries, h]
      | some e => simp [diagnose, resultEntries, h]
    | many rs0 =>
      simp only [diagnose, resultEntries]
      constructor
      · intro hs
        by_cases hlen : ((rs0.filter (fun r => !(r.errors == none))).map
            (fun r => errorMessage (r.errors.getD (.array [])))).length > 0
        · have : (rs0.filter (fun r => !(r.errors == none))) ≠ [] := by
            intro hnil
            rw [hnil] at hlen
            simp at hlen
          rcases List.exists_mem_of_ne_nil _ this with ⟨e, he⟩
          have := List.mem_filter.mp he
          exact ⟨e, this.1, by simpa using this.2⟩
        · rw [if_neg hlen] at hs
          simp at hs
      · rintro ⟨e, he, hne⟩
        have hmem : e ∈ rs0.filter (fun r => !(r.errors == none)) :=
          List.mem_filter.mpr ⟨he, by simpa using hne⟩
        have hlen : ((rs0.filter (fun r => !(r.errors == none))).map
            (fun r => errorMessage (r.errors.getD (.array [])))).length > 0 := by
          simp only [List.length_map]
          exact List.length_pos.mpr (List.ne_nil_of_mem hmem)
        rw [if_pos hlen]
        rfl
  · intro hfil he
    simp only [diagnose]
    rw [hfil]
    simp [he, errorMessage, joinWith]

/-- Witness for C10: a single empty-array entry throws with the empty
message, and a defined single error makes the result diagnosed as
throwing. -/
theorem c10_witness :
    (diagnose (.many [{ errors := some (.array []) }]) = some "") ∧
    ((diagnose (.one { errors := some (.single { message := "x" }) })).isSome ↔
      ∃ e ∈ resultEntries (.one { errors := some (.single { message := "x" }) }),
        e.errors ≠ none) :=
  ⟨(c10_diagnose_defined_errors (.many []) [{ errors := some (.array []) }]
      { errors := some (.array []) }).2.2 rfl rfl,
    (c10_diagnose_defined_errors (.one { errors := some (.single { message := "x" }) })
      [] { errors := none }).1⟩

/-- C7 counterexample: an element that carries both the API-name and the
label annotation but whose label is the (falsy) empty string is changed
by `annotateApiNameAndLabel`, which overwrites the label. -/
theorem c7_counterexample_falsy_label :
    getAssoc exEmptyLabel.annots API_NAME ≠ none ∧
    getAssoc exEmptyLabel.annots LABEL ≠ none ∧
    annotateApiNameAndLabel exEmptyLabel ≠ exEmptyLabel := by
  refine ⟨by decide, by decide, by decide⟩

/-- C7 amended: `annotateApiNameAndLabel` is idempotent on every object
element (applying it twice yields exactly the result of applying it
once, on the object and on each field), and an element whose object and
fields all carry both annotations with truthy values is left entirely
unchanged. -/
theorem c7_annotate_idempotent (e : ObjectTypeE) :
    annotateApiNameAndLabel (annotateApiNameAndLabel e) = annotateApiNameAndLabel e ∧
    (truthy (lookupA e.annots API_NAME) = true → truthy (lookupA e.annots LABEL) = true →
      (∀ fld ∈ e.fields, truthy (lookupA fld.2.annots API_NAME) = true ∧
        truthy (lookupA fld.2.annots LABEL) = true) →
      annotateApiNameAndLabel e = e) := by
  constructor
  · exact annotateApiNameAndLabel_idem e
  · intro h1 h2 hf
    unfold annotateApiNameAndLabel
    have ha : innerAnnotate e.annots e.name = e.annots := innerAnnotate_of_truthy _ _ h1 h2
    have hfields : e.fields.map
        (fun fld => (fld.1, { fld.2 with annots := innerAnnotate fld.2.annots fld.1 }))
          = e.fields := by
      have hid : ∀ fld ∈ e.fields,
          (fun fld => (fld.1, { fld.2 with annots := innerAnnotate fld.2.annots fld.1 })) fld
            = id fld := by
        intro fld hmem
        rcases hf fld hmem with ⟨hfa, hfl⟩
        simp only [id]
        rw [innerAnnotate_of_truthy _ _ hfa hfl]
      rw [List.map_congr_left hid, List.map_id]
    rw [ha, hfields]

/-- Witness for C7: idempotence at a concrete unannotated element, and
invariance at a concrete fully-annotated element. -/
theorem c7_witness :
    annotateApiNameAndLabel (annotateApiNameAndLabel exNewBar) =
        annotateApiNameAndLabel exNewBar ∧
    annotateApiNameAndLabel exAnnotated = exAnnotated :=
  ⟨(c7_annotate_idempotent exNewBar).1,
    (c7_annotate_idempotent exAnnotated).2 (by decide) (by decide) (by decide)⟩

/-- C3 counterexample: in the object-discovery mapping path, a field
with exactly one default-flagged picklist value but vendor type
`multipicklist` receives the one-element list `["A"]` as its default
annotation, not the scalar `"A"` the claim requires of both paths. -/
theorem c3_counterexample_multipicklist :
    (exMultiPicklistField.picklistValues.getD []).filter (fun v => v.defaultValue) =
        [{ value := "A", defaultValue := true }] ∧
    lookupA (createSObjectFieldTypeElement exMultiPicklistField).annots DEFAULT_ANNOT =
        .strList ["A"] ∧
    lookupA (createSObjectFieldTypeElement exMultiPicklistField).annots DEFAULT_ANNOT ≠
        .str "A" := by
  refine ⟨rfl, rfl, by decide⟩

/-- C3 amended: the two discovery paths resolve picklist defaults
differently. In the object-discovery path the branch is on the vendor
field type: when any values are default-flagged, a `picklist` field
gets the last flagged value as a scalar and any other field type gets
the list of flagged values. In the metadata-type-discovery path the
branch is on the count: exactly one flagged value is stored as a
scalar, more than one as the list. -/
theorem c3_default_resolution (f : SField) (g : VTField) (pf pg : List PicklistEntry)
    (hf : f.picklistValues = some pf) (hpf : 0 < pf.length)
    (hg : g.picklistValues = some pg) (hpg : 0 < pg.length) :
    (0 < ((pf.filter (fun val => val.defaultValue)).map (fun val => val.value)).length →
      f.ftype = "picklist" →
      lookupA (createSObjectFieldTypeElement f).annots DEFAULT_ANNOT =
        .str (((pf.filter (fun val => val.defaultValue)).map (fun val => val.value)).getLastD "")) ∧
    (0 < ((pf.filter (fun val => val.defaultValue)).map (fun val => val.value)).length →
      f.ftype ≠ "picklist" →
      lookupA (createSObjectFieldTypeElement f).annots DEFAULT_ANNOT =
        .strList ((pf.filter (fun val => val.defaultValue)).map (fun val => val.value))) ∧
    (((pg.filter (fun val => val.defaultValue)).map (fun val => val.value)).length = 1 →
      lookupA (createMetadataFieldTypeElement g).annots DEFAULT_ANNOT =
        .str (((pg.filter (fun val => val.defaultValue)).map (fun val => val.value)).getLastD "")) ∧
    (1 < ((pg.filter (fun val => val.defaultValue)).map (fun val => val.value)).length →
      lookupA (createMetadataFieldTypeElement g).annots DEFAULT_ANNOT =
        .strList ((pg.filter (fun val => val.defaultValue)).map (fun val => val.value))) := by
  refine ⟨?_, ?_, ?_, ?_⟩
  · intro hd ht
    have htb : (f.ftype == "picklist") = true := by simpa using ht
    unfold createSObjectFieldTypeElement
    rw [hf]
    simp only
    rw [if_pos hpf, if_pos hd, if_pos htb]
    exact lookupA_setAssoc_self _ _ _
  · intro hd ht
    have htb : (f.ftype == "picklist") = false := by simpa using ht
    unfold createSObjectFieldTypeElement
    rw [hf]
    simp only
    rw [if_pos hpf, if_pos hd, if_neg (by simp [htb])]
    exact lookupA_setAssoc_self _ _ _
  · intro hd
    have hdb : (((pg.filter (fun val => val.defaultValue)).map
        (fun val => val.value)).length == 1) = true := by simpa using hd
    unfold createMetadataFieldTypeElement
    rw [hg]
    simp only
    rw [if_pos hpg, if_pos hdb]
    dsimp only
    exact lookupA_setAssoc_self _ _ _
  · intro hd
    have hdb : (((pg.filter (fun val => val.defaultValue)).map
        (fun val => val.value)).length == 1) = false := by
      rw [beq_eq_false_iff_ne]
      simp only [List.length_map] at hd ⊢
      omega
    unfold createMetadataFieldTypeElement
    rw [hg]
    simp only
    rw [if_pos hpg, if_neg (by simp only [hdb]; decide)]
    dsimp only
    exact lookupA_setAssoc_self _ _ _

/-- Witness for C3 amended: the `picklist`-typed sobject field keeps
the last flagged value as a scalar default, and the metadata field with
a single flagged value keeps it as a scalar default. -/
theorem c3_witness :
    lookupA (createSObjectFieldTypeElement exPicklistField).annots DEFAULT_ANNOT =
        .str "L" ∧
    lookupA (createMetadataFieldTypeElement exMetaField).annots DEFAULT_ANNOT =
        .str "on" := by
  have h := c3_default_resolution exPicklistField exMetaField
    [{ value := "S", defaultValue := true }, { value := "L", defaultValue := true }]
    [{ value := "on", defaultValue := true }, { value := "off", defaultValue := false }]
    rfl (by decide) rfl (by decide)
  exact ⟨(h.1 (by decide) (by decide)).trans (by rfl), (h.2.2.1 (by decide)).trans (by rfl)⟩

theorem listGetD_append_lt {α : Type} (l : List α) (x d : α) (r : Nat) (hr : r < l.length) :
    (l ++ [x]).getD r d = l.getD r d := by
  induction l generalizing r with
  | nil => simp at hr
  | cons a t ih =>
    cases r with
    | zero => rfl
    | succ n =>
      simp only [List.cons_append, List.getD_cons_succ]
      exact ih n (by simpa using hr)

theorem listGetD_append_len {α : Type} (l : List α) (x d : α) :
    (l ++ [x]).getD l.length d = x := by
  induction l with
  | nil => rfl
  | cons a t ih => simp [ih]

theorem listSet_append_len {α : Type} (l : List α) (x y : α) :
    (l ++ [x]).set l.length y = l ++ [y] := by
  induction l with
  | nil => rfl
  | cons a t ih => simp [List.set, ih]

theorem heapGet_append_len (h : List ObjectTypeE) (x : ObjectTypeE) :
    heapGet (h ++ [x]) h.length = x :=
  listGetD_append_len h x emptyObject

theorem heapGet_append_lt (h : List ObjectTypeE) (x : ObjectTypeE) (r : Nat)
    (hr : r < h.length) : heapGet (h ++ [x]) r = heapGet h r :=
  listGetD_append_lt h x emptyObject r hr

theorem addHeap_heap (client : Client) (h : List ObjectTypeE) (eRef : Nat) :
    (addHeap client h eRef).1 = h ++ [annotateApiNameAndLabel (heapGet h eRef)] := by
  unfold addHeap
  dsimp only
  rw [heapGet_append_len, listSet_append_len]

theorem updateHeap_heap (client : Client) (h : List ObjectTypeE) (prevRef newRef : Nat) :
    (updateHeap client h prevRef newRef).1 =
      h ++ [annotateApiNameAndLabel (heapGet h newRef)] := by
  unfold updateHeap
  dsimp only
  rw [heapGet_append_len, listSet_append_len]

theorem addHeap_result (client : Client) (h : List ObjectTypeE) (eRef : Nat) :
    (addHeap client h eRef).2.1 =
      (addRest client (annotateApiNameAndLabel (heapGet h eRef))).1.map (fun _ => h.length) := by
  unfold addHeap
  dsimp only
  rw [heapGet_append_len, listSet_append_len, heapGet_append_len]

theorem updateHeap_result (client : Client) (h : List ObjectTypeE) (prevRef newRef : Nat)
    (hp : prevRef < h.length) :
    (updateHeap client h prevRef newRef).2.1 =
      (updateRest client (heapGet h prevRef)
        (annotateApiNameAndLabel (heapGet h newRef))).1.map (fun _ => h.length) := by
  unfold updateHeap
  dsimp only
  rw [heapGet_append_len, listSet_append_len, heapGet_append_len, heapGet_append_lt _ _ _ hp]

theorem exceptMap_ok {ε α β : Type} {f : α → β} {x : Except ε α} {r : β}
    (h : x.map f = .ok r) : ∃ a, x = .ok a ∧ r = f a := by
  cases x with
  | error e => simp [Except.map] at h
  | ok a =>
    refine ⟨a, rfl, ?_⟩
    simp [Except.map] at h
    exact h.symm

/-- C9: neither the heap model of `add` nor of `update` writes the
caller's elements: the input reference (and, for `update`, both the
previous and the new reference) still holds the original value in the
final heap, all normalization having been applied to the freshly
allocated clone, which on success is exactly the reference returned and
holds the normalized copy of the input. -/
theorem c9_no_input_mutation (client : Client) (h : List ObjectTypeE)
    (eRef prevRef newRef : Nat)
    (he : eRef < h.length) (hp : prevRef < h.length) (hn : newRef < h.length) :
    heapGet (addHeap client h eRef).1 eRef = heapGet h eRef ∧
    heapGet (updateHeap client h prevRef newRef).1 prevRef = heapGet h prevRef ∧
    heapGet (updateHeap client h prevRef newRef).1 newRef = heapGet h newRef ∧
    (∀ h2 r trace, addHeap client h eRef = (h2, Except.ok r, trace) →
      heapGet h2 r = annotateApiNameAndLabel (heapGet h eRef)) ∧
    (∀ h2 r trace, updateHeap client h prevRef newRef = (h2, Except.ok r, trace) →
      heapGet h2 r = annotateApiNameAndLabel (heapGet h newRef)) := by
  refine ⟨?_, ?_, ?_, ?_, ?_⟩
  · rw [addHeap_heap]
    exact listGetD_append_lt h _ _ eRef he
  · rw [updateHeap_heap]
    exact listGetD_append_lt h _ _ prevRef hp
  · rw [updateHeap_heap]
    exact listGetD_append_lt h _ _ newRef hn
  · intro h2 r trace heq
    have hh2 : h2 = h ++ [annotateApiNameAndLabel (heapGet h eRef)] := by
      rw [← addHeap_heap client h eRef, heq]
    have hres : (addHeap client h eRef).2.1 = Except.ok r := by rw [heq]
    rw [addHeap_result] at hres
    rcases exceptMap_ok hres with ⟨a, _, hr⟩
    rw [hh2, hr]
    exact heapGet_append_len h _
  · intro h2 r trace heq
    have hh2 : h2 = h ++ [annotateApiNameAndLabel (heapGet h newRef)] := by
      rw [← updateHeap_heap client h prevRef newRef, heq]
    have hres : (updateHeap client h prevRef newRef).2.1 = Except.ok r := by rw [heq]
    rw [updateHeap_result client h prevRef newRef hp] at hres
    rcases exceptMap_ok hres with ⟨a, _, hr⟩
    rw [hh2, hr]
    exact heapGet_append_len h _

/-- Witness for C9 on a two-element heap holding `exPrevFoo` and
`exNewBar`, with `add` reading index 0 and `update` reading both. -/
theorem c9_witness :
    heapGet (addHeap okClient [exPrevFoo, exNewBar] 0).1 0 = heapGet [exPrevFoo, exNewBar] 0 ∧
    heapGet (updateHeap okClient [exPrevFoo, exNewBar] 0 1).1 0 =
      heapGet [exPrevFoo, exNewBar] 0 ∧
    heapGet (updateHeap okClient [exPrevFoo, exNewBar] 0 1).1 1 =
      heapGet [exPrevFoo, exNewBar] 1 :=
  ⟨(c9_no_input_mutation okClient [exPrevFoo, exNewBar] 0 0 1
      (by decide) (by decide) (by decide)).1,
    (c9_no_input_mutation okClient [exPrevFoo, exNewBar] 0 0 1
      (by decide) (by decide) (by decide)).2.1,
    (c9_no_input_mutation okClient [exPrevFoo, exNewBar] 0 0 1
      (by decide) (by decide) (by decide)).2.2.1⟩

theorem joinWith_cons_ne (sep x : String) (xs : List String) (h : xs ≠ []) :
    joinWith sep (x :: xs) = x ++ sep ++ joinWith sep xs := by
  cases xs with
  | nil => exact absurd rfl h
  | cons y ys => rfl

theorem joinWith_append (sep : String) (a b : List String) (ha : a ≠ []) (hb : b ≠ []) :
    joinWith sep (a ++ b) = joinWith sep a ++ sep ++ joinWith sep b := by
  induction a with
  | nil => exact absurd rfl ha
  | cons x a2 ih =>
    cases a2 with
    | nil =>
      simp only [List.cons_append, List.nil_append]
      rw [joinWith_cons_ne sep x b hb]
      rfl
    | cons y a3 =>
      have h2 : (y :: a3) ++ b ≠ [] := by simp
      rw [List.cons_append, joinWith_cons_ne sep x _ h2,
        joinWith_cons_ne sep x (y :: a3) (by simp), ih (by simp)]
      simp [String.append_assoc]

theorem flatten_ne_nil_of_head (g : List String) (gs : List (List String)) (hg : g ≠ []) :
    (g :: gs).flatten ≠ [] := by
  simp only [List.flatten_cons]
  intro h
  rcases List.append_eq_nil.mp h with ⟨h1, _⟩
  exact hg h1

theorem joinWith_flatten (sep : String) (gs : List (List String))
    (h : ∀ g ∈ gs, g ≠ []) :
    joinWith sep (gs.map (joinWith sep)) = joinWith sep gs.flatten := by
  induction gs with
  | nil => rfl
  | cons g rest ih =>
    cases rest with
    | nil => simp [joinWith]
    | cons g2 rest2 =>
      have hg : g ≠ [] := h g (by simp)
      have hflat : (g2 :: rest2).flatten ≠ [] :=
        flatten_ne_nil_of_head g2 rest2 (h g2 (by simp))
      rw [List.map_cons, joinWith_cons_ne sep _ _ (by simp), List.flatten_cons,
        joinWith_append sep g (g2 :: rest2).flatten hg hflat,
        ih (fun g hgm => h g (List.mem_cons_of_mem _ hgm))]

theorem entryMessages_spec (r : SaveResultE) (e : SfErrors) (h : r.errors = some e) :
    errorMessage e = joinWith "\n" (entryMessages r) := by
  cases e with
  | single err =>
    unfold entryMessages
    rw [h]
    rfl
  | array errs =>
    unfold entryMessages
    rw [h]
    rfl

theorem flatten_filter_defined (rs : List SaveResultE) :
    ((rs.filter (fun r => !(r.errors == none))).map entryMessages).flatten =
      (rs.map entryMessages).flatten := by
  induction rs with
  | nil => rfl
  | cons r rest ih =>
    cases he : r.errors with
    | none =>
      have hfd : (!(r.errors == none)) = false := by simp [he]
      have hnil : entryMessages r = [] := by simp [entryMessages, he]
      rw [List.map_cons, List.flatten_cons, hnil, List.nil_append, ← ih,
        List.filter_cons_of_neg (by simp [hfd])]
    | some e =>
      have hfd : (!(r.errors == none)) = true := by simp [he]
      rw [List.filter_cons_of_pos (by simp [he]), List.map_cons, List.flatten_cons,
        List.map_cons, List.flatten_cons, ih]

/-- C5 counterexample: a create result holding one entry with the error
message `boom` and a second entry whose `errors` is the empty array.
The individual error messages of the result are exactly `["boom"]`, so
the claim requires the aggregated message `boom`, but `add` raises
`boom` followed by a trailing newline (the empty entry contributes an
empty segment to the join). -/
theorem c5_counterexample_trailing_newline :
    allErrorMessages (.many [{ errors := some (.array [{ message := "boom" }]) },
        { errors := some (.array []) }]) = ["boom"] ∧
    (addOp (fun _ => .many [{ errors := some (.array [{ message := "boom" }]) },
        { errors := some (.array []) }])
      { name := "obj", annots := [], fields := [] }).1 = .error "boom\n" ∧
    ("boom\n" : String) ≠ joinWith "\n" ["boom"] := by
  refine ⟨rfl, rfl, by decide⟩

/-- C5 amended: when the create call's result carries any entry with a
defined `errors` property, `add` raises the aggregated error `diagnose`
builds and never issues the permission-update call; the aggregated
message is the newline-join of all individual error messages whenever
no entry carries a defined-but-empty error array (entries with an empty
error array contribute an empty segment instead, as the counterexample
shows); when neither call returns an error, `add` returns the
normalized clone after issuing exactly the create and permission
calls. -/
theorem c5_add_error_aggregation (client : Client) (element : ObjectTypeE) :
    (∀ m, diagnose (client (createObjectCall (annotateApiNameAndLabel element.clone))) = some m →
      addOp client element =
        (.error m, [createObjectCall (annotateApiNameAndLabel element.clone)])) ∧
    (∀ r : SfResult, (∀ e ∈ resultEntries r, e.errors ≠ some (.array [])) →
      (∃ e ∈ resultEntries r, e.errors ≠ none) →
      diagnose r = some (joinWith "\n" (allErrorMessages r))) ∧
    (diagnose (client (createObjectCall (annotateApiNameAndLabel element.clone))) = none →
      diagnose (client (addPermissionsCall (annotateApiNameAndLabel element.clone))) = none →
      addOp client element =
        (.ok (annotateApiNameAndLabel element.clone),
          [createObjectCall (annotateApiNameAndLabel element.clone),
            addPermissionsCall (annotateApiNameAndLabel element.clone)])) := by
  refine ⟨?_, ?_, ?_⟩
  · intro m hm
    unfold addOp addRest
    dsimp only
    rw [hm]
  · intro r hne hdef
    cases r with
    | one r0 =>
      rcases hdef with ⟨e0, he0, hne0⟩
      have he0' : e0 = r0 := by simpa [resultEntries] using he0
      subst he0'
      cases he : e0.errors with
      | none => exact absurd he hne0
      | some e =>
        simp only [diagnose, he]
        rw [entryMessages_spec e0 e he]
        have : allErrorMessages (.one e0) = entryMessages e0 := by
          simp [allErrorMessages, resultEntries]
        rw [this]
    | many rs =>
      have herrs : (rs.filter (fun r => !(r.errors == none))).map
          (fun r => errorMessage (r.errors.getD (.array []))) =
          ((rs.filter (fun r => !(r.errors == none))).map entryMessages).map
            (joinWith "\n") := by
        rw [List.map_map]
        apply List.map_congr_left
        intro r hr
        have hdef2 : (!(r.errors == none)) = true := (List.mem_filter.mp hr).2
        cases he : r.errors with
        | none => simp [he] at hdef2
        | some e =>
          simp only [Function.comp, he, Option.getD_some]
          exact entryMessages_spec r e he
      rcases hdef with ⟨e0, he0, hne0⟩
      have hmem : e0 ∈ rs.filter (fun r => !(r.errors == none)) :=
        List.mem_filter.mpr ⟨by simpa [resultEntries] using he0, by simpa using hne0⟩
      have hflne : rs.filter (fun r => !(r.errors == none)) ≠ [] :=
        List.ne_nil_of_mem hmem
      have hlen : ((rs.filter (fun r => !(r.errors == none))).map
          (fun r => errorMessage (r.errors.getD (.array [])))).length > 0 := by
        simp only [List.length_map]
        exact List.length_pos.mpr hflne
      simp only [diagnose]
      rw [if_pos hlen, herrs]
      rw [joinWith_flatten "\n" _ ?hne]
      case hne =>
        intro g hg
        rcases List.mem_map.mp hg with ⟨r, hrmem, hre⟩
        have hdef2 : (!(r.errors == none)) = true := (List.mem_filter.mp hrmem).2
        cases he : r.errors with
        | none => simp [he] at hdef2
        | some e =>
          cases e with
          | single err => simp [← hre, entryMessages, he]
          | array errs =>
            have hane : r.errors ≠ some (.array []) :=
              hne r (by simpa [resultEntries] using (List.mem_filter.mp hrmem).1)
            have herrsne : errs ≠ [] := by
              intro hnil
              exact hane (by rw [he, hnil])
            rw [← hre]
            simp [entryMessages, he, herrsne]
      rw [flatten_filter_defined]
      rfl
  · intro h1 h2
    unfold addOp addRest
    dsimp only
    rw [h1, h2]

/-- Witness for C5 amended: the failing client makes `add` raise with
only the create call issued; the succeeding client makes `add` return
the normalized clone after the create and permission calls. -/
theorem c5_witness :
    addOp exBoomClient exPlainObject =
      (.error "boom\n", [createObjectCall (annotateApiNameAndLabel exPlainObject.clone)]) ∧
    addOp okClient exPlainObject =
      (.ok (annotateApiNameAndLabel exPlainObject.clone),
        [createObjectCall (annotateApiNameAndLabel exPlainObject.clone),
          addPermissionsCall (annotateApiNameAndLabel exPlainObject.clone)]) :=
  ⟨(c5_add_error_aggregation exBoomClient exPlainObject).1 "boom\n" rfl,
    (c5_add_error_aggregation okClient exPlainObject).2.2 rfl rfl⟩

theorem filter_contains_eq_fieldsOnlyInFst (a b : ObjectTypeE) :
    a.fields.filter (fun field => (getFieldsThatAreNotInOther a b).contains field.1) =
      fieldsOnlyInFst a b := by
  unfold fieldsOnlyInFst
  apply List.filter_congr
  intro p hp
  unfold getFieldsThatAreNotInOther
  cases hb : b.fields.any (fun q => q.1 == p.1) with
  | false =>
    have hmem : p.1 ∈ (a.fields.filter
        (fun r => !(b.fields.any (fun q => q.1 == r.1)))).map (fun r => r.1) :=
      List.mem_map.mpr ⟨p, List.mem_filter.mpr ⟨hp, by simp [hb]⟩, rfl⟩
    simp only [hb, Bool.not_false]
    simpa using hmem
  | true =>
    have hnmem : p.1 ∉ (a.fields.filter
        (fun r => !(b.fields.any (fun q => q.1 == r.1)))).map (fun r => r.1) := by
      intro hmem
      rcases List.mem_map.mp hmem with ⟨q, hqf, hq1⟩
      have hpred := (List.mem_filter.mp hqf).2
      rw [hq1] at hpred
      simp [hb] at hpred
    simp only [hb, Bool.not_true]
    simpa using hnmem

theorem fieldsOnlyInFst_annotate_right (a b : ObjectTypeE) :
    fieldsOnlyInFst a (annotateApiNameAndLabel b) = fieldsOnlyInFst a b := by
  unfold fieldsOnlyInFst annotateApiNameAndLabel
  dsimp only
  apply List.filter_congr
  intro p _
  rw [List.any_map]
  rfl

theorem fieldsOnlyInFst_annotate_left_keys (a b : ObjectTypeE) :
    (fieldsOnlyInFst (annotateApiNameAndLabel b) a).map (fun field => field.1) =
      (fieldsOnlyInFst b a).map (fun field => field.1) := by
  unfold fieldsOnlyInFst annotateApiNameAndLabel
  dsimp only
  rw [List.filter_map, List.map_map]
  rfl

theorem fieldsOnlyInFst_annotate_left_nil (a b : ObjectTypeE) :
    (fieldsOnlyInFst (annotateApiNameAndLabel b) a = []) ↔ (fieldsOnlyInFst b a = []) := by
  have h := fieldsOnlyInFst_annotate_left_keys a b
  constructor
  · intro hnil
    rw [hnil] at h
    exact List.map_eq_nil_iff.mp h.symm
  · intro hnil
    rw [hnil] at h
    simp only [List.map_nil] at h
    exact List.map_eq_nil_iff.mp h

theorem deleteCustomFieldsOp_ok (client : Client) (objectApiName : String)
    (fieldsApiName : List String) (hok : ∀ c, diagnose (client c) = none) :
    deleteCustomFieldsOp client objectApiName fieldsApiName =
      (none, if fieldsApiName.length = 0 then []
        else [ClientCall.delete CUSTOM_FIELD
          (.many (fieldsApiName.map (fun field => fieldFullName objectApiName field)))]) := by
  unfold deleteCustomFieldsOp
  by_cases h : fieldsApiName.length = 0
  · rw [if_pos h, if_pos h]
  · rw [if_neg h, if_neg h]
    dsimp only
    rw [hok _]

theorem createFieldsOp_ok (client : Client) (relatedObjectApiName : String)
    (fieldsToAdd : List FieldElem) (hok : ∀ c, diagnose (client c) = none) :
    createFieldsOp client relatedObjectApiName fieldsToAdd =
      (none, if fieldsToAdd.length = 0 then []
        else [ClientCall.create CUSTOM_FIELD
            (.fieldList (fieldsToAdd.map (fun f => toCustomField f true relatedObjectApiName))),
          updatePermissionsCall relatedObjectApiName
            (fieldsToAdd.map (fun f => asString (lookupA f.annots API_NAME)))]) := by
  unfold createFieldsOp
  by_cases h : fieldsToAdd.length = 0
  · rw [if_pos h, if_pos h]
  · rw [if_neg h, if_neg h]
    simp only [hok]

theorem updateOp_ok (client : Client) (prevElement newElement : ObjectTypeE)
    (hok : ∀ c, diagnose (client c) = none)
    (hapi : apiNameOf (annotateApiNameAndLabel newElement.clone) = apiNameOf prevElement) :
    updateOp client prevElement newElement =
      (.ok (annotateApiNameAndLabel newElement.clone),
        (if fieldsOnlyInFst prevElement (annotateApiNameAndLabel newElement.clone) = [] then []
          else [ClientCall.delete CUSTOM_FIELD
            (.many ((fieldsOnlyInFst prevElement (annotateApiNameAndLabel newElement.clone)).map
              (fun field => fieldFullName (asString (apiNameOf prevElement))
                (asString (lookupA field.2.annots API_NAME)))))])
        ++
        (if fieldsOnlyInFst (annotateApiNameAndLabel newElement.clone) prevElement = [] then []
          else [ClientCall.create CUSTOM_FIELD
              (.fieldList ((fieldsOnlyInFst (annotateApiNameAndLabel newElement.clone)
                  prevElement).map
                (fun field => toCustomField field.2 true
                  (asString (apiNameOf (annotateApiNameAndLabel newElement.clone)))))),
            updatePermissionsCall (asString (apiNameOf (annotateApiNameAndLabel newElement.clone)))
              ((fieldsOnlyInFst (annotateApiNameAndLabel newElement.clone) prevElement).map
                (fun field => asString (lookupA field.2.annots API_NAME)))])) := by
  unfold updateOp updateRest
  rw [if_neg (fun hne => hne hapi)]
  rw [filter_contains_eq_fieldsOnlyInFst, filter_contains_eq_fieldsOnlyInFst]
  rw [deleteCustomFieldsOp_ok client _ _ hok, createFieldsOp_ok client _ _ hok]
  dsimp only
  simp only [List.length_map, List.length_eq_zero, List.map_map]
  rfl

/-- C1: under matching API names and a client that reports no errors,
`update` issues exactly one batched delete call whose payload is the
fully-qualified names of precisely the fields present in the previous
element but absent from the new one (no call when that set is empty),
and exactly one batched create call whose payload is the custom fields,
under fully-qualified names, built from precisely the (normalized)
fields present in the new element but absent from the previous one (no
call when that set is empty); the names of the normalized create set
are exactly the names computed on the caller's new element, and a field
present in both versions is in neither set. -/
theorem c1_update_field_reconciliation (client : Client) (prevElement newElement : ObjectTypeE)
    (hok : ∀ c, diagnose (client c) = none)
    (hapi : apiNameOf (annotateApiNameAndLabel newElement.clone) = apiNameOf prevElement) :
    ((updateOp client prevElement newElement).2.filter isDeleteCall =
      if fieldsOnlyInFst prevElement newElement = [] then []
      else [ClientCall.delete CUSTOM_FIELD
        (.many ((fieldsOnlyInFst prevElement newElement).map
          (fun field => fieldFullName (asString (apiNameOf prevElement))
            (asString (lookupA field.2.annots API_NAME)))))]) ∧
    ((updateOp client prevElement newElement).2.filter isCreateCall =
      if fieldsOnlyInFst newElement prevElement = [] then []
      else [ClientCall.create CUSTOM_FIELD
        (.fieldList ((fieldsOnlyInFst (annotateApiNameAndLabel newElement.clone) prevElement).map
          (fun field => toCustomField field.2 true
            (asString (apiNameOf (annotateApiNameAndLabel newElement.clone))))))]) ∧
    ((fieldsOnlyInFst (annotateApiNameAndLabel newElement.clone) prevElement).map
        (fun field => field.1) =
      (fieldsOnlyInFst newElement prevElement).map (fun field => field.1)) ∧
    (∀ fld ∈ prevElement.fields, (newElement.fields.any (fun q => q.1 == fld.1)) = true →
      fld.1 ∉ (fieldsOnlyInFst prevElement newElement).map (fun field => field.1) ∧
      fld.1 ∉ (fieldsOnlyInFst newElement prevElement).map (fun field => field.1)) := by
  have hupd := updateOp_ok client prevElement newElement hok hapi
  rw [fieldsOnlyInFst_annotate_right] at hupd
  simp only [ObjectTypeE.clone] at hupd ⊢
  have hCiff := fieldsOnlyInFst_annotate_left_nil prevElement newElement
  refine ⟨?_, ?_, fieldsOnlyInFst_annotate_left_keys prevElement newElement, ?_⟩
  · rw [hupd]
    dsimp only
    rw [List.filter_append]
    by_cases hD : fieldsOnlyInFst prevElement newElement = [] <;>
      by_cases hC : fieldsOnlyInFst (annotateApiNameAndLabel newElement) prevElement = [] <;>
      simp [hD, hC, isDeleteCall, updatePermissionsCall]
  · rw [hupd]
    dsimp only
    rw [List.filter_append]
    by_cases hC : fieldsOnlyInFst newElement prevElement = []
    · have hC2 : fieldsOnlyInFst (annotateApiNameAndLabel newElement) prevElement = [] :=
        hCiff.mpr hC
      by_cases hD : fieldsOnlyInFst prevElement newElement = [] <;>
        simp [hD, hC, hC2, isCreateCall, updatePermissionsCall]
    · have hC2 : ¬fieldsOnlyInFst (annotateApiNameAndLabel newElement) prevElement = [] :=
        fun h => hC (hCiff.mp h)
      by_cases hD : fieldsOnlyInFst prevElement newElement = [] <;>
        simp [hD, hC, hC2, isCreateCall, updatePermissionsCall]
  · intro fld hmem hany
    constructor
    · intro hin
      unfold fieldsOnlyInFst at hin
      rcases List.mem_map.mp hin with ⟨q, hqf, hq1⟩
      have hpred := (List.mem_filter.mp hqf).2
      rw [hq1, hany] at hpred
      simp at hpred
    · intro hin
      unfold fieldsOnlyInFst at hin
      rcases List.mem_map.mp hin with ⟨q, hqf, hq1⟩
      have hpred := (List.mem_filter.mp hqf).2
      have hprev : (prevElement.fields.any (fun r => r.1 == q.1)) = true :=
        List.any_eq_true.mpr ⟨fld, hmem, by simp [hq1]⟩
      rw [hprev] at hpred
      simp at hpred

/-- Witness for C1 on previous fields {a, b} and new fields {b, c}:
one delete call for a and one create call for c. -/
theorem c1_witness :
    (updateOp okClient exUpdPrev exUpdNew).2.filter isDeleteCall =
      (if fieldsOnlyInFst exUpdPrev exUpdNew = [] then []
        else [ClientCall.delete CUSTOM_FIELD
          (.many ((fieldsOnlyInFst exUpdPrev exUpdNew).map
            (fun field => fieldFullName (asString (apiNameOf exUpdPrev))
              (asString (lookupA field.2.annots API_NAME)))))]) ∧
    (updateOp okClient exUpdPrev exUpdNew).2.filter isDeleteCall =
      [ClientCall.delete CUSTOM_FIELD (.many ["My Obj__c.A__c"])] ∧
    (updateOp okClient exUpdPrev exUpdNew).2.filter isCreateCall =
      [ClientCall.create CUSTOM_FIELD (.fieldList
        [{ fullName := .str "My Obj__c.F C__c", ftype := "string", label := .str "F C",
            required := .undefV, picklistValues := .undefV }])] := by
  have h := c1_update_field_reconciliation okClient exUpdPrev exUpdNew
    (fun c => rfl) (by decide)
  exact ⟨h.1, h.1.trans (by rfl), h.2.1.trans (by rfl)⟩

theorem deleteCustomFieldsOp_no_update (client : Client) (objectApiName : String)
    (fieldsApiName : List String) (t : String) (pi : ProfileInfo)
    (h : ClientCall.update t pi ∈ (deleteCustomFieldsOp client objectApiName fieldsApiName).2) :
    False := by
  unfold deleteCustomFieldsOp at h
  by_cases hn : fieldsApiName.length = 0
  · rw [if_pos hn] at h
    simp at h
  · rw [if_neg hn] at h
    dsimp only at h
    simp at h

theorem createFieldsOp_update_call (client : Client) (relatedObjectApiName : String)
    (fieldsToAdd : List FieldElem) (t : String) (pi : ProfileInfo)
    (h : ClientCall.update t pi ∈ (createFieldsOp client relatedObjectApiName fieldsToAdd).2) :
    ClientCall.update t pi = updatePermissionsCall relatedObjectApiName
      (fieldsToAdd.map (fun f => asString (lookupA f.annots API_NAME))) := by
  unfold createFieldsOp at h
  by_cases hn : fieldsToAdd.length = 0
  · rw [if_pos hn] at h
    simp at h
  · rw [if_neg hn] at h
    dsimp only at h
    cases hd : diagnose (client (ClientCall.create CUSTOM_FIELD
        (.fieldList (fieldsToAdd.map (fun f => toCustomField f true relatedObjectApiName))))) with
    | some msg =>
      rw [hd] at h
      dsimp only at h
      simp at h
    | none =>
      rw [hd] at h
      dsimp only at h
      simpa using h

theorem addRest_update_call (client : Client) (post : ObjectTypeE) (t : String)
    (pi : ProfileInfo) (h : ClientCall.update t pi ∈ (addRest client post).2) :
    ClientCall.update t pi = addPermissionsCall post := by
  unfold addRest at h
  dsimp only at h
  cases hd : diagnose (client (createObjectCall post)) with
  | some msg =>
    rw [hd] at h
    dsimp only at h
    simp [createObjectCall] at h
  | none =>
    rw [hd] at h
    dsimp only at h
    cases hd2 : diagnose (client (addPermissionsCall post)) with
    | some msg =>
      rw [hd2] at h
      dsimp only at h
      simpa [createObjectCall] using h
    | none =>
      rw [hd2] at h
      dsimp only at h
      simpa [createObjectCall] using h

/-- C8: every Profile-update call issued by `add`, or by the
field-creation path of `update`, targets the Profile metadata type and
sends one ProfileInfo for the system-administrator profile `Admin`
carrying exactly one permission entry per added field — the
fully-qualified field name with `editable := true` and
`readable := true` — and nothing else. -/
theorem c8_admin_permission_entries (client : Client)
    (element prevElement newElement : ObjectTypeE) (t : String) (pi : ProfileInfo) :
    (ClientCall.update t pi ∈ (addOp client element).2 →
      t = METADATA_PROFILE_OBJECT ∧ pi.fullName = PROFILE_NAME_SYSTEM_ADMINISTRATOR ∧
      pi.fieldPermissions = (annotateApiNameAndLabel element.clone).fields.map (fun fld =>
        { field := fieldFullName (asString (apiNameOf (annotateApiNameAndLabel element.clone)))
            (asString (fieldApiName fld.2)),
          editable := true, readable := true })) ∧
    (ClientCall.update t pi ∈ (updateOp client prevElement newElement).2 →
      t = METADATA_PROFILE_OBJECT ∧ pi.fullName = PROFILE_NAME_SYSTEM_ADMINISTRATOR ∧
      pi.fieldPermissions =
        (fieldsOnlyInFst (annotateApiNameAndLabel newElement.clone) prevElement).map (fun fld =>
          { field := fieldFullName
              (asString (apiNameOf (annotateApiNameAndLabel newElement.clone)))
              (asString (lookupA fld.2.annots API_NAME)),
            editable := true, readable := true })) := by
  constructor
  · intro hmem
    have h := addRest_update_call client (annotateApiNameAndLabel element.clone) t pi hmem
    unfold addPermissionsCall updatePermissionsCall at h
    injection h with h1 h2
    refine ⟨h1, ?_, ?_⟩
    · rw [h2]
    · rw [h2]
      dsimp only
      rw [List.map_map]
      rfl
  · intro hmem
    unfold updateOp updateRest at hmem
    by_cases hne : apiNameOf (annotateApiNameAndLabel newElement.clone) ≠ apiNameOf prevElement
    · rw [if_pos hne] at hmem
      simp at hmem
    · rw [if_neg hne] at hmem
      rcases hdel : deleteCustomFieldsOp client (asString (apiNameOf prevElement))
        ((prevElement.fields.filter (fun field =>
            (getFieldsThatAreNotInOther prevElement
              (annotateApiNameAndLabel newElement.clone)).contains field.1)).map
          (fun field => asString (lookupA field.2.annots API_NAME))) with ⟨dres, dtrace⟩
      rw [hdel] at hmem
      cases dres with
      | some msg =>
        dsimp only at hmem
        exact absurd (by rw [hdel]; exact hmem : ClientCall.update t pi ∈
          (deleteCustomFieldsOp client (asString (apiNameOf prevElement))
            ((prevElement.fields.filter (fun field =>
                (getFieldsThatAreNotInOther prevElement
                  (annotateApiNameAndLabel newElement.clone)).contains field.1)).map
              (fun field => asString (lookupA field.2.annots API_NAME)))).2)
          (fun hc => deleteCustomFieldsOp_no_update _ _ _ _ _ hc)
      | none =>
        rcases hcr : createFieldsOp client
          (asString (apiNameOf (annotateApiNameAndLabel newElement.clone)))
          (((annotateApiNameAndLabel newElement.clone).fields.filter (fun field =>
              (getFieldsThatAreNotInOther (annotateApiNameAndLabel newElement.clone)
                prevElement).contains field.1)).map
            (fun field => field.2)) with ⟨cres, ctrace⟩
        rw [hcr] at hmem
        have hctr : ClientCall.update t pi ∈ dtrace ++ ctrace := by
          cases cres with
          | some msg => exact hmem
          | none => exact hmem
        rcases List.mem_append.mp hctr with hda | hca
        · exact absurd (by rw [hdel]; exact hda : ClientCall.update t pi ∈
            (deleteCustomFieldsOp client (asString (apiNameOf prevElement))
              ((prevElement.fields.filter (fun field =>
                  (getFieldsThatAreNotInOther prevElement
                    (annotateApiNameAndLabel newElement.clone)).contains field.1)).map
                (fun field => asString (lookupA field.2.annots API_NAME)))).2)
            (fun hc => deleteCustomFieldsOp_no_update _ _ _ _ _ hc)
        · have h := createFieldsOp_update_call client
            (asString (apiNameOf (annotateApiNameAndLabel newElement.clone)))
            (((annotateApiNameAndLabel newElement.clone).fields.filter (fun field =>
                (getFieldsThatAreNotInOther (annotateApiNameAndLabel newElement.clone)
                  prevElement).contains field.1)).map
              (fun field => field.2)) t pi (by rw [hcr]; exact hca)
          rw [filter_contains_eq_fieldsOnlyInFst] at h
          unfold updatePermissionsCall at h
          injection h with h1 h2
          refine ⟨h1, ?_, ?_⟩
          · rw [h2]
          · rw [h2]
            dsimp only
            rw [List.map_map, List.map_map]
            rfl

/-- Witness for C8: the Profile-update call found in the trace of `add`
on a one-field element carries exactly the Admin entry for that field. -/
theorem c8_witness :
    exAdminProfileInfo.fullName = PROFILE_NAME_SYSTEM_ADMINISTRATOR ∧
    exAdminProfileInfo.fieldPermissions =
      (annotateApiNameAndLabel exUpdNewOneField.clone).fields.map (fun fld =>
        { field := fieldFullName
            (asString (apiNameOf (annotateApiNameAndLabel exUpdNewOneField.clone)))
            (asString (fieldApiName fld.2)),
          editable := true, readable := true }) := by
  have h := (c8_admin_permission_entries okClient exUpdNewOneField exUpdPrev exUpdNew
    "Profile" exAdminProfileInfo).1 (by decide)
  exact ⟨h.2.1, h.2.2⟩

theorem createSObjectFieldTypeElement_no_fls (f : SField) :
    getAssoc (createSObjectFieldTypeElement f).annots FIELD_LEVEL_SECURITY = none := by
  have h1 : ∀ (m : List (String × Value)) (v : Value),
      getAssoc (setAssoc m LABEL v) FIELD_LEVEL_SECURITY = getAssoc m FIELD_LEVEL_SECURITY :=
    fun m v => getAssoc_setAssoc_ne m LABEL FIELD_LEVEL_SECURITY v (by decide)
  have h2 : ∀ (m : List (String × Value)) (v : Value),
      getAssoc (setAssoc m REQUIRED v) FIELD_LEVEL_SECURITY = getAssoc m FIELD_LEVEL_SECURITY :=
    fun m v => getAssoc_setAssoc_ne m REQUIRED FIELD_LEVEL_SECURITY v (by decide)
  have h3 : ∀ (m : List (String × Value)) (v : Value),
      getAssoc (setAssoc m DEFAULT_ANNOT v) FIELD_LEVEL_SECURITY =
        getAssoc m FIELD_LEVEL_SECURITY :=
    fun m v => getAssoc_setAssoc_ne m DEFAULT_ANNOT FIELD_LEVEL_SECURITY v (by decide)
  have h4 : ∀ (m : List (String × Value)) (v : Value),
      getAssoc (setAssoc m PICKLIST_VALUES v) FIELD_LEVEL_SECURITY =
        getAssoc m FIELD_LEVEL_SECURITY :=
    fun m v => getAssoc_setAssoc_ne m PICKLIST_VALUES FIELD_LEVEL_SECURITY v (by decide)
  have h5 : ∀ (m : List (String × Value)) (v : Value),
      getAssoc (setAssoc m RESTRICTED_PICKLIST v) FIELD_LEVEL_SECURITY =
        getAssoc m FIELD_LEVEL_SECURITY :=
    fun m v => getAssoc_setAssoc_ne m RESTRICTED_PICKLIST FIELD_LEVEL_SECURITY v (by decide)
  unfold createSObjectFieldTypeElement
  cases hpv : f.picklistValues with
  | none =>
    dsimp only
    rw [h3, h2, h1]
    rfl
  | some pvs =>
    dsimp only
    split
    · repeat' first
      | rw [h1] | rw [h2] | rw [h3] | rw [h4] | rw [h5]
      | split
      all_goals rfl
    · rw [h3, h2, h1]
      rfl

theorem foldl_setAssoc_preserve {β : Type} (P : String × FieldElem → Prop)
    (key : β → String) (val : β → FieldElem) (fs : List β)
    (hval : ∀ b, P (key b, val b)) :
    ∀ (acc : List (String × FieldElem)), (∀ p ∈ acc, P p) →
      ∀ p ∈ fs.foldl (fun a b => setAssoc a (key b) (val b)) acc, P p := by
  induction fs with
  | nil => intro acc hacc p hp; exact hacc p hp
  | cons b rest ih =>
    intro acc hacc p hp
    rw [List.foldl_cons] at hp
    refine ih (setAssoc acc (key b) (val b)) ?_ p hp
    intro q hq
    rcases mem_setAssoc hq with he | hm
    · rw [he]; exact hval b
    · exact hacc q hm

theorem createSObjectTypeElement_fields_no_fls (objectName : String) (fs : List SField) :
    ∀ p ∈ (createSObjectTypeElement objectName fs).fields,
      getAssoc p.2.annots FIELD_LEVEL_SECURITY = none := by
  unfold createSObjectTypeElement
  dsimp only
  refine foldl_setAssoc_preserve
    (fun p => getAssoc p.2.annots FIELD_LEVEL_SECURITY = none)
    (fun field => bpCase field.name)
    (fun field => { createSObjectFieldTypeElement field with
      annots := setAssoc (createSObjectFieldTypeElement field).annots API_NAME
        (.str field.name) }) fs ?_ [] (by simp)
  intro field
  dsimp only
  rw [getAssoc_setAssoc_ne _ _ _ _ (by decide)]
  exact createSObjectFieldTypeElement_no_fls field

theorem attachPermissions_annots (permissions : PermIndex) (sobject : ObjectTypeE) :
    (attachPermissions permissions sobject).annots = sobject.annots := rfl

theorem getAssoc_foldl_perm_not_mem (rest : List (String × FieldPermission)) :
    ∀ (acc : List (String × Bool × Bool)) (k : String),
      k ∉ rest.map (fun r => bpCase r.1) →
      getAssoc (rest.foldl (fun a q => setAssoc a (bpCase q.1) (q.2.editable, q.2.readable)) acc) k
        = getAssoc acc k := by
  induction rest with
  | nil => intro acc k _; rfl
  | cons q t ih =>
    intro acc k hk
    simp only [List.map_cons, List.mem_cons, not_or] at hk
    rw [List.foldl_cons, ih _ k hk.2]
    exact getAssoc_setAssoc_ne _ _ _ _ hk.1

theorem foldl_perm_lookup (entry : List (String × FieldPermission)) :
    ∀ (acc : List (String × Bool × Bool)) (pp : String × FieldPermission),
      pp ∈ entry → (entry.map (fun q => bpCase q.1)).Nodup →
      getAssoc (entry.foldl (fun a q => setAssoc a (bpCase q.1) (q.2.editable, q.2.readable)) acc)
        (bpCase pp.1) = some (pp.2.editable, pp.2.readable) := by
  induction entry with
  | nil => intro acc pp hpp _; cases hpp
  | cons q rest ih =>
    intro acc pp hpp hnd
    rcases List.mem_cons.mp hpp with he | hm
    · subst he
      have hnotin : bpCase pp.1 ∉ rest.map (fun r => bpCase r.1) :=
        (List.nodup_cons.mp (by simpa using hnd)).1
      rw [List.foldl_cons, getAssoc_foldl_perm_not_mem rest _ _ hnotin]
      exact getAssoc_setAssoc_self _ _ _
    · rw [List.foldl_cons]
      exact ih _ pp hm (List.nodup_cons.mp (by simpa using hnd)).2

/-- C6: after object discovery, a discovered field whose fully-qualified
name (object API name, dot, field API name) has no entry in the
discovered permission index carries no field-level-security annotation,
and a field whose name has an entry carries the annotation mapping each
internalized (bpCase-converted) profile name recorded for it to its
editable/readable flags (assuming the internalized profile names of the
entry do not collide). -/
theorem c6_field_level_security (sobjectsData : List (String × List SField))
    (profilesInfo : List ProfileInfo) (so : ObjectTypeE)
    (hso : so ∈ discoverSObjectsOp sobjectsData profilesInfo)
    (fld : String × FieldElem) (hf : fld ∈ so.fields) :
    (getAssoc (discoverPermissionsOp profilesInfo)
        (asString (lookupA so.annots API_NAME) ++ "."
          ++ asString (lookupA fld.2.annots API_NAME)) = none →
      getAssoc fld.2.annots FIELD_LEVEL_SECURITY = none) ∧
    (∀ entry, getAssoc (discoverPermissionsOp profilesInfo)
        (asString (lookupA so.annots API_NAME) ++ "."
          ++ asString (lookupA fld.2.annots API_NAME)) = some entry →
      (entry.map (fun pp => bpCase pp.1)).Nodup →
      ∀ pp ∈ entry,
        getAssoc (permsEntries (lookupA fld.2.annots FIELD_LEVEL_SECURITY)) (bpCase pp.1) =
          some (pp.2.editable, pp.2.readable)) := by
  unfold discoverSObjectsOp at hso
  rcases List.mem_map.mp hso with ⟨base, hbase, hattach⟩
  rcases List.mem_map.mp hbase with ⟨d, _, hd⟩
  have hannots : so.annots = base.annots := by
    rw [← hattach, attachPermissions_annots]
  have hfields : so.fields = base.fields.map (fun fld0 =>
      match getAssoc (discoverPermissionsOp profilesInfo)
        (asString (lookupA base.annots API_NAME) ++ "."
          ++ asString (lookupA fld0.2.annots API_NAME)) with
      | some entry =>
        (fld0.1, { fld0.2 with
          annots := setAssoc fld0.2.annots FIELD_LEVEL_SECURITY
            (buildFieldPermValue entry) })
      | none => fld0) := by
    rw [← hattach]
    rfl
  rw [hfields] at hf
  rcases List.mem_map.mp hf with ⟨fld0, hf0, hg⟩
  have hnofls : getAssoc fld0.2.annots FIELD_LEVEL_SECURITY = none := by
    rw [← hd] at hf0
    exact createSObjectTypeElement_fields_no_fls d.1 d.2 fld0 hf0
  cases hidx : getAssoc (discoverPermissionsOp profilesInfo)
      (asString (lookupA base.annots API_NAME) ++ "."
        ++ asString (lookupA fld0.2.annots API_NAME)) with
  | none =>
    rw [hidx] at hg
    dsimp only at hg
    have hfld : fld = fld0 := hg.symm
    subst hfld
    have hkey : asString (lookupA so.annots API_NAME) ++ "."
        ++ asString (lookupA fld.2.annots API_NAME) =
        asString (lookupA base.annots API_NAME) ++ "."
          ++ asString (lookupA fld.2.annots API_NAME) := by
      rw [hannots]
    constructor
    · intro _
      exact hnofls
    · intro entry hentry _ pp _
      rw [hkey, hidx] at hentry
      cases hentry
  | some e =>
    rw [hidx] at hg
    dsimp only at hg
    have hfld : fld = (fld0.1, { fld0.2 with
        annots := setAssoc fld0.2.annots FIELD_LEVEL_SECURITY (buildFieldPermValue e) }) :=
      hg.symm
    have hapieq : lookupA fld.2.annots API_NAME = lookupA fld0.2.annots API_NAME := by
      rw [hfld]
      dsimp only
      exact lookupA_setAssoc_ne _ _ _ _ (by decide)
    have hkey : asString (lookupA so.annots API_NAME) ++ "."
        ++ asString (lookupA fld.2.annots API_NAME) =
        asString (lookupA base.annots API_NAME) ++ "."
          ++ asString (lookupA fld0.2.annots API_NAME) := by
      rw [hannots, hapieq]
    constructor
    · intro hnone
      rw [hkey, hidx] at hnone
      cases hnone
    · intro entry hentry hnd pp hpp
      rw [hkey, hidx] at hentry
      have hee : e = entry := by injection hentry
      subst hee
      rw [hfld]
      dsimp only
      rw [lookupA_setAssoc_self]
      unfold buildFieldPermValue permsEntries
      exact foldl_perm_lookup e [] pp hpp hnd

/-- Witness for C6: discovery of the Account object against the Admin
profile attaches the admin entry to the Name field. -/
theorem c6_witness :
    exDiscovered ∈ discoverSObjectsOp exAccountData exProfilesInfo ∧
    ("name", exDiscoveredField) ∈ exDiscovered.fields ∧
    getAssoc (permsEntries (lookupA exDiscoveredField.annots FIELD_LEVEL_SECURITY))
      (bpCase "Admin") = some (true, true) := by
  refine ⟨by decide, by decide, ?_⟩
  exact (c6_field_level_security exAccountData exProfilesInfo exDiscovered (by decide)
    ("name", exDiscoveredField) (by decide)).2
    [("Admin", { field := "Account.Name", editable := true, readable := true })]
    (by decide) (by decide)
    ("Admin", { field := "Account.Name", editable := true, readable := true }) (by decide)

end Salto
